import Mathlib

/-!
# dsum: hashing the blocks of a disk

A shallow embedding of `dsum.cpp` and a verification of its specification.

The program reads a raw device with a fixed number of asynchronous reads in
flight, hashes every `CHUNK_ALIGN`-sized chunk of each completed read with
SHA-1 and scatters the digests into a memory-mapped output file.

Modelling conventions.

* Machine integers are natural numbers; every operation the source performs
  in a fixed width is followed by an explicit `% U32` or `% U64`.
* The operating system is a record of answers (`Env`): which flags the
  command line carries and their parsed integer values, the core mask, and
  whether each resource acquisition succeeds.  The string scanning of
  `GetArg` is not modelled: an integer flag is the number its digits spell.
  The store of `GetArg` is modelled: eight bytes through a `SIZE_T` pointer,
  also where the target is a 32-bit parameter (see `GetArg`, `parameters`).
* The completion port is the list of request slots whose read has been
  issued and not yet dequeued.  A completion may be delivered in any order,
  so a worker step names the slot it dequeues.
* One worker step is one iteration of the loop in `WorkerEntry`: dequeue,
  hash, `SubmitIo`.  The fetch-and-add on `BlockPtr` is part of that step.
  The steps of different workers interleave in any order.
* The output map is a log of writes `(byte offset from pOut, digest)`.
* `SHA1` and the device contents are parameters, and the device does not
  change during a run, so a read is taken to complete when its completion is
  dequeued.  It fills the buffer of its slot with the bytes the device holds
  in the range of the read; where the range runs past the end of the device
  the buffer keeps what it held before.
-/

namespace Dsum

set_option maxRecDepth 100000

/-! ## Constants and machine arithmetic -/

def MAX_QUEUE : Nat := 1024

def MAX_THREADS : Nat := 64

/-- Modulus of `UINT` / `DWORD`. -/
def U32 : Nat := 2 ^ 32

/-- Modulus of `UINT64` / `SIZE_T`. -/
def U64 : Nat := 2 ^ 64

/-- The macro `ROUND_UP(n, m)`, `((((n) + (m) - 1) / m) * m)`, in 64-bit
unsigned arithmetic.  The subtraction of one is written as the addition of
`U64 - 1` so that it wraps like the machine operation. -/
def ROUND_UP (n m : Nat) : Nat :=
  (((n + m) % U64 + (U64 - 1)) % U64 / m * m) % U64

/-- The intrinsic `__popcnt64`: number of set bits among the low 64. -/
def popcnt64 (m : Nat) : Nat :=
  ((List.range 64).filter (fun i => m.testBit i)).length

/-- Unsigned remainder; `none` is the divide fault raised for a zero divisor. -/
def umod (a b : Nat) : Option Nat :=
  if b = 0 then none else some (a % b)

/-! ## Data model -/

/-- The two offset words of an `OVERLAPPED`. -/
structure OVERLAPPED where
  Offset : Nat
  OffsetHigh : Nat
deriving DecidableEq, Repr

/-- A request slot: the offset words of its `OVERLAPPED` and the contents of
the buffer `pData` points to (no bytes before the buffer is allocated). -/
structure IRP where
  ov : OVERLAPPED
  pData : List Nat
deriving DecidableEq, Repr

/-- The program's parameters and derived sizes (its globals), as they stand
when the initial reads are submitted, with two locals of `Entry`:
`TrueDiskSize`, the size of the device, and `ChunkTotal`, the size of the
output file and of its mapping. -/
structure Params where
  IO_BLOCK_SZ : Nat
  QUEUE_DEPTH : Nat
  CHUNK_ALIGN : Nat
  THREAD_COUNT : Nat
  DISK_BYTES : Nat
  BLOCK_CHUNKS : Nat
  BlockCount : Nat
  ChunkTotal : Nat
  TrueDiskSize : Nat
deriving DecidableEq, Repr

/-- Shared state of the pipeline.

* `BlockPtr`: the block cursor.
* `IoRequest`: the global slot array.
* `iocp`: slots with a read issued and not yet dequeued by a worker.
* `live`: number of worker threads still inside their loop.
* `reads`: device offsets of the reads issued so far, oldest first.
* `hashed`: device offsets of the completions hashed so far, oldest first.
* `out`: writes made to the output map, oldest first. -/
structure State where
  BlockPtr : Nat
  IoRequest : List IRP
  iocp : List Nat
  live : Nat
  reads : List Nat
  hashed : List Nat
  out : List (Nat × List Nat)
deriving DecidableEq, Repr

/-- The 64-bit value held in an `OVERLAPPED` offset pair
(`ULARGE_INTEGER` with `LowPart`, `HighPart`). -/
def QuadPart (ov : OVERLAPPED) : Nat :=
  ov.Offset + ov.OffsetHigh * U32

/-- The slot `IoRequest[slot]`. -/
def slotAt (IoRequest : List IRP) (slot : Nat) : IRP :=
  IoRequest.getD slot { ov := { Offset := 0, OffsetHigh := 0 }, pData := [] }

/-! ## SubmitIo -/

/-- Lines 172-175 of `SubmitIo`: the offset pair stored for block `idx`. -/
def diskAddr (p : Params) (idx : Nat) : OVERLAPPED :=
  let DiskAddr := (idx * p.IO_BLOCK_SZ) % U64
  { Offset := DiskAddr % U32, OffsetHigh := DiskAddr / U32 }

/-- The function `SubmitIo(pIRP)`, with `pIRP = &IoRequest[slot]`.
`accepted` is the answer of `ReadFile`: true when it returns nonzero or
fails with `ERROR_IO_PENDING`. -/
def SubmitIo (p : Params) (accepted : Bool) (s : State) (slot : Nat) : Bool × State :=
  let DiskAddr := s.BlockPtr
  let s1 := { s with BlockPtr := (s.BlockPtr + 1) % U64 }
  if DiskAddr ≥ p.BlockCount then
    (false, s1)
  else
    let ov := diskAddr p DiskAddr
    let s2 := { s1 with
      IoRequest := s1.IoRequest.set slot { slotAt s1.IoRequest slot with ov := ov } }
    if accepted then
      (true, { s2 with iocp := s2.iocp ++ [slot], reads := s2.reads ++ [QuadPart ov] })
    else
      (false, s2)

/-! ## WorkerEntry -/

/-- The `len` bytes of the device from offset `off` on. -/
def deviceBytes (device : Nat → Nat) (off len : Nat) : List Nat :=
  (List.range len).map (fun j => device (off + j))

/-- The slot once its read has completed.  The device delivers the bytes it
holds in the range of the read, `IO_BLOCK_SZ` of them or fewer when the range
runs past the end of the device; the rest of the buffer keeps what it held.
The number of bytes delivered is reported to the caller of
`GetQueuedCompletionStatus` in `Result`, which `WorkerEntry` never reads. -/
def completeRead (p : Params) (device : Nat → Nat) (pIRP : IRP) : IRP :=
  let off := QuadPart pIRP.ov
  let n := min p.IO_BLOCK_SZ (p.TrueDiskSize - off)
  { pIRP with pData := deviceBytes device off n ++ pIRP.pData.drop n }

/-- The loop at lines 207-213: `n` iterations remain, `pHash` is the byte
offset of the next digest from `pOut`, `pData` the unread rest of the buffer.
Each iteration writes the digest of the next `CHUNK_ALIGN` bytes at `pHash`. -/
def hashLoop (SHA1 : List Nat → List Nat) (CHUNK_ALIGN : Nat) :
    Nat → Nat → List Nat → List (Nat × List Nat)
  | 0, _, _ => []
  | n + 1, pHash, pData =>
    (pHash, SHA1 (pData.take CHUNK_ALIGN)) ::
      hashLoop SHA1 CHUNK_ALIGN n ((pHash + 20) % U64) (pData.drop CHUNK_ALIGN)

/-- Lines 200-213 of `WorkerEntry`: the writes made for a completed slot,
from its offset words and the contents of its buffer. -/
def hashBlock (p : Params) (SHA1 : List Nat → List Nat) (pIRP : IRP) :
    List (Nat × List Nat) :=
  let Chunk := QuadPart pIRP.ov / p.CHUNK_ALIGN
  let pHash := (Chunk * 20) % U64
  let pData := pIRP.pData
  hashLoop SHA1 p.CHUNK_ALIGN p.BLOCK_CHUNKS pHash pData

/-- What a worker meets when it waits on the completion port. -/
inductive Event where
  /-- The completion of request slot `slot` is delivered; `accepted` is the
  answer of `ReadFile` should the worker resubmit the slot. -/
  | completion (slot : Nat) (accepted : Bool)
  /-- The call `GetQueuedCompletionStatus` fails.  It has either dequeued
  nothing (`none`) or dequeued the packet of a failed read (`some slot`). -/
  | waitFailed (slot : Option Nat)
deriving DecidableEq, Repr

/-- The body of the loop in `WorkerEntry`, run once by any live worker on
what its wait returns; `run` interleaves the iterations of all workers.  A
failed wait ends the worker without hashing, and so does a `SubmitIo` that
returns false.  `none`: no live worker, or no read in flight for that slot. -/
def WorkerEntry (p : Params) (SHA1 : List Nat → List Nat) (device : Nat → Nat)
    (s : State) : Event → Option State
  | .waitFailed none =>
    if s.live = 0 then none else some { s with live := s.live - 1 }
  | .waitFailed (some slot) =>
    if s.live = 0 then none else
    if slot ∉ s.iocp then none else
    some { s with iocp := s.iocp.erase slot, live := s.live - 1 }
  | .completion slot accepted =>
    if s.live = 0 then none else
    if slot ∉ s.iocp then none else
    match s.IoRequest[slot]? with
    | none => none
    | some queued =>
      let pIRP := completeRead p device queued
      let s1 := { s with
        IoRequest := s.IoRequest.set slot pIRP
        iocp := s.iocp.erase slot
        hashed := s.hashed ++ [QuadPart pIRP.ov]
        out := s.out ++ hashBlock p SHA1 pIRP }
      let r := SubmitIo p accepted s1 slot
      if r.1 then some r.2 else some { r.2 with live := r.2.live - 1 }

/-- A run of the worker fleet under a schedule of events. -/
def run (p : Params) (SHA1 : List Nat → List Nat) (device : Nat → Nat) :
    State → List Event → Option State
  | s, [] => some s
  | s, e :: es =>
    match WorkerEntry p SHA1 device s e with
    | none => none
    | some s1 => run p SHA1 device s1 es

/-- A schedule without I/O failure: every wait delivers a completion and
every resubmitted read is accepted. -/
def noFailure : List Event → Bool
  | [] => true
  | .completion _ accepted :: es => accepted && noFailure es
  | .waitFailed _ :: _ => false

/-! ## Entry -/

/-- Flags found on the command line.  A path flag is present or not; an
integer flag carries the number its digits spell. -/
structure CommandLine where
  disk : Bool
  out : Bool
  align : Option Nat
  threads : Option Nat
  iosize : Option Nat
  iodepth : Option Nat
  bytes : Option Nat

/-- Answers of the operating system to `Entry`. -/
structure Env where
  cmd : CommandLine
  /-- Result of `GetCoreMask()`. -/
  CoreMask : Nat
  /-- `CreateFile` on the device succeeds. -/
  openDisk : Bool
  /-- `DiskGeometry.DiskSize` when the geometry request succeeds. -/
  DiskSize : Option Nat
  /-- `CreateFile` on the output path succeeds. -/
  createOut : Bool
  /-- `CreateFileMapping` and `MapViewOfFile` succeed. -/
  mapOut : Bool
  /-- `CreateIoCompletionPort` succeeds. -/
  createPort : Bool
  /-- `VirtualAlloc` for slot `i` succeeds. -/
  allocated : Nat → Bool
  /-- `ReadFile` for the initial submission of slot `i` is accepted. -/
  accepted : Nat → Bool
  /-- `CreateThread` for worker `i` succeeds. -/
  threadCreated : Nat → Bool

/-- The diagnostics `Entry` prints before `return -1`. -/
inductive Diag where
  | missingDisk
  | missingOut
  | missingAlign
  | alignmentTooLarge
  | sizeNotDivisible
  | openDiskFailed
  | geometryFailed
  | openOutputFailed
  | mapOutputFailed
  | createPortFailed
  | allocateBufferFailed
  | beginFailed
  | createThreadFailed
deriving DecidableEq, Repr

/-- The fixed-size arrays `Entry` indexes. -/
inductive Table where
  | IoRequest
  | hThread
deriving DecidableEq, Repr

/-- How far `Entry` gets before it waits for the workers. -/
inductive Outcome where
  /-- A diagnostic was printed and `Entry` executed `return code`. -/
  | ret (d : Diag) (code : Int)
  /-- A remainder by zero was evaluated. -/
  | divideByZero
  /-- Entry `i` of a table was accessed past its end. -/
  | outOfBounds (t : Table) (i : Nat)
  /-- All workers were created; the pipeline starts from `s`. -/
  | started (p : Params) (s : State)
deriving DecidableEq, Repr

/-- The call `GetArg(pName, p, true)` for a 32-bit parameter.  `word` is the
parameter at `p` and `next` the four bytes that follow it.  A flag that is
absent stores nothing.  For a flag that is present the parsed value, a
`SIZE_T`, is stored through `(SIZE_T*) p`: its low half in `word`, its upper
half in `next`. -/
def GetArg (flag : Option Nat) (word next : Nat) : Nat × Nat :=
  match flag with
  | none => (word, next)
  | some v => (v % U64 % U32, v % U64 / U32)

/-- The call `GetArg("/bytes:", &DISK_BYTES, true)`: the target is 64 bits
wide and takes the whole value. -/
def GetArg64 (flag : Option Nat) (value : Nat) : Nat :=
  match flag with
  | none => value
  | some v => v % U64

/-- Lines 264-276: the size validation.  `Except.ok` carries `BLOCK_CHUNKS`. -/
def checkSizes (CHUNK_ALIGN IO_BLOCK_SZ : Nat) : Except Outcome Nat :=
  if CHUNK_ALIGN > IO_BLOCK_SZ then .error (.ret .alignmentTooLarge (-1)) else
  match umod IO_BLOCK_SZ CHUNK_ALIGN with
  | none => .error .divideByZero
  | some r =>
    if r ≠ 0 then .error (.ret .sizeNotDivisible (-1)) else
    .ok (IO_BLOCK_SZ / CHUNK_ALIGN)

/-- Lines 278-288: the worker count `Entry` settles on. -/
def threadCount (THREAD_COUNT CoreMask : Nat) : Nat :=
  let CoreCount := popcnt64 CoreMask
  let THREAD_COUNT := if THREAD_COUNT > CoreCount then CoreCount else THREAD_COUNT
  if THREAD_COUNT = 0 then CoreCount else THREAD_COUNT

/-- Lines 304-314: the byte range `Entry` settles on. -/
def diskBytes (DISK_BYTES TrueDiskSize IO_BLOCK_SZ : Nat) : Nat :=
  let DISK_BYTES := if DISK_BYTES > TrueDiskSize then TrueDiskSize else DISK_BYTES
  let DISK_BYTES := if DISK_BYTES = 0 then TrueDiskSize else DISK_BYTES
  ROUND_UP DISK_BYTES IO_BLOCK_SZ

/-- Line 318: the size of the output file. -/
def chunkTotal (DISK_BYTES CHUNK_ALIGN : Nat) : Nat :=
  (DISK_BYTES / CHUNK_ALIGN * 20) % U64

/-- Lines 347-360: the initial submissions, `n` iterations remaining, the
loop variable at `i`.  A buffer from `VirtualAlloc` holds zeros. -/
def submitInitial (p : Params) (env : Env) : Nat → Nat → State → Except Outcome State
  | 0, _, s => .ok s
  | n + 1, i, s =>
    if i ≥ MAX_QUEUE then .error (.outOfBounds .IoRequest i) else
    if !env.allocated i then .error (.ret .allocateBufferFailed (-1)) else
    let s1 := { s with
      IoRequest := s.IoRequest.set i
        { slotAt s.IoRequest i with pData := List.replicate p.IO_BLOCK_SZ 0 } }
    let r := SubmitIo p (env.accepted i) s1 i
    if !r.1 then .error (.ret .beginFailed (-1)) else
    submitInitial p env n (i + 1) r.2

/-- Lines 362-371: worker creation, `n` iterations remaining. -/
def createThreads (env : Env) : Nat → Nat → Except Outcome Unit
  | 0, _ => .ok ()
  | n + 1, i =>
    if i ≥ 64 then .error (.outOfBounds .hThread i) else
    if !env.threadCreated i then .error (.ret .createThreadFailed (-1)) else
    createThreads env n (i + 1)

/-- The state before the first submission: cursor at zero, the slot array
zero-initialised, nothing in flight. -/
def State.initial : State :=
  { BlockPtr := 0
    IoRequest := List.replicate MAX_QUEUE
      { ov := { Offset := 0, OffsetHigh := 0 }, pData := [] }
    iocp := []
    live := 0
    reads := []
    hashed := []
    out := [] }

/-- The integer parameters as the command line leaves them. -/
structure Parsed where
  CHUNK_ALIGN : Nat
  THREAD_COUNT : Nat
  IO_BLOCK_SZ : Nat
  QUEUE_DEPTH : Nat
  DISK_BYTES : Nat
deriving DecidableEq, Repr

/-- Lines 253-262: the five integer parameters after the calls of `GetArg`.
Before the calls they hold their initial values: `IO_BLOCK_SZ = 0x10000`,
`QUEUE_DEPTH = 256`, the others 0.  The parameters with a nonzero initial
value (`IO_BLOCK_SZ`, `QUEUE_DEPTH`) are taken to lie together, and so are
those that start at zero (`CHUNK_ALIGN`, `THREAD_COUNT`, `DISK_BYTES`,
`BLOCK_CHUNKS`), each group in the order of declaration.  So the store for
`/align` runs over `THREAD_COUNT`, the one for `/threads` over the low half of
`DISK_BYTES` and the one for `/iosize` over `QUEUE_DEPTH`; a later call for a
flag that is present stores over that again.  The store for `/iodepth` runs
past the end of the first group, over no parameter. -/
def parameters (cmd : CommandLine) (align : Nat) : Parsed :=
  let a := GetArg (some align) 0 0
  let t := GetArg cmd.threads a.2 0
  let i := GetArg cmd.iosize 0x10000 256
  let q := GetArg cmd.iodepth i.2 0
  let b := GetArg64 cmd.bytes t.2
  { CHUNK_ALIGN := a.1, THREAD_COUNT := t.1, IO_BLOCK_SZ := i.1, QUEUE_DEPTH := q.1,
    DISK_BYTES := b }

/-- The function `Entry`, up to the point where it waits for the workers. -/
def Entry (env : Env) : Outcome :=
  if !env.cmd.disk then .ret .missingDisk (-1) else
  if !env.cmd.out then .ret .missingOut (-1) else
  match env.cmd.align with
  | none => .ret .missingAlign (-1)
  | some align =>
    let CHUNK_ALIGN := (parameters env.cmd align).CHUNK_ALIGN
    let THREAD_COUNT := (parameters env.cmd align).THREAD_COUNT
    let IO_BLOCK_SZ := (parameters env.cmd align).IO_BLOCK_SZ
    let QUEUE_DEPTH := (parameters env.cmd align).QUEUE_DEPTH
    let DISK_BYTES := (parameters env.cmd align).DISK_BYTES
    match checkSizes CHUNK_ALIGN IO_BLOCK_SZ with
    | .error o => o
    | .ok BLOCK_CHUNKS =>
      let THREAD_COUNT := threadCount THREAD_COUNT env.CoreMask
      if !env.openDisk then .ret .openDiskFailed (-1) else
      match env.DiskSize with
      | none => .ret .geometryFailed (-1)
      | some DiskSize =>
        let TrueDiskSize := DiskSize % U64
        let DISK_BYTES := diskBytes DISK_BYTES TrueDiskSize IO_BLOCK_SZ
        let BlockCount := DISK_BYTES / IO_BLOCK_SZ
        let ChunkTotal := chunkTotal DISK_BYTES CHUNK_ALIGN
        if !env.createOut then .ret .openOutputFailed (-1) else
        if !env.mapOut then .ret .mapOutputFailed (-1) else
        if !env.createPort then .ret .createPortFailed (-1) else
        let p : Params :=
          { IO_BLOCK_SZ := IO_BLOCK_SZ
            QUEUE_DEPTH := QUEUE_DEPTH
            CHUNK_ALIGN := CHUNK_ALIGN
            THREAD_COUNT := THREAD_COUNT
            DISK_BYTES := DISK_BYTES
            BLOCK_CHUNKS := BLOCK_CHUNKS
            BlockCount := BlockCount
            ChunkTotal := ChunkTotal
            TrueDiskSize := TrueDiskSize }
        match submitInitial p env QUEUE_DEPTH 0 State.initial with
        | .error o => o
        | .ok s =>
          match createThreads env THREAD_COUNT 0 with
          | .error o => o
          | .ok _ => .started p { s with live := THREAD_COUNT }

/-- The function `main`: it calls `Entry`, discards the value `Entry`
returns, and reaches its closing brace, so the process exit code is 0
whenever `Entry` returns.  `Entry` returns at once on a fatal path, and
after `WaitForMultipleObjects` once every worker has left its loop (here:
the schedule `evs` ends with no live worker).  `none`: the process does not
leave `main` normally (fault, or workers still waiting). -/
def main (SHA1 : List Nat → List Nat) (device : Nat → Nat) (env : Env)
    (evs : List Event) : Option Int :=
  match Entry env with
  | .ret _ _ => some 0
  | .divideByZero => none
  | .outOfBounds _ _ => none
  | .started p s =>
    match run p SHA1 device s evs with
    | none => none
    | some s1 => if s1.live = 0 then some 0 else none

/-! ## Concrete environments and runs -/

/-- An operating system in which every request succeeds. -/
def okEnv (cmd : CommandLine) (CoreMask DiskSize : Nat) : Env :=
  { cmd := cmd
    CoreMask := CoreMask
    openDisk := true
    DiskSize := some DiskSize
    createOut := true
    mapOut := true
    createPort := true
    allocated := fun _ => true
    accepted := fun _ => true
    threadCreated := fun _ => true }

/-- A small run: `/align:512 /iosize:1024 /iodepth:2 /threads:2` on a device
of eight 512-byte sectors with two cores: four blocks of two chunks. -/
def demoEnv : Env :=
  okEnv { disk := true, out := true, align := some 512, threads := some 2,
          iosize := some 1024, iodepth := some 2, bytes := none } 3 4096

def demoParams : Params :=
  { IO_BLOCK_SZ := 1024
    QUEUE_DEPTH := 2
    CHUNK_ALIGN := 512
    THREAD_COUNT := 2
    DISK_BYTES := 4096
    BLOCK_CHUNKS := 2
    BlockCount := 4
    ChunkTotal := 160
    TrueDiskSize := 4096 }

/-- The slot array with slots 0 and 1 reading at offsets `a` and `b`, their
buffers holding `x` and `y`. -/
def demoSlots (a : Nat) (x : List Nat) (b : Nat) (y : List Nat) : List IRP :=
  (State.initial.IoRequest.set 0 { ov := { Offset := a, OffsetHigh := 0 }, pData := x }).set 1
    { ov := { Offset := b, OffsetHigh := 0 }, pData := y }

def demoStart : State :=
  { BlockPtr := 2
    IoRequest := demoSlots 0 (List.replicate 1024 0) 1024 (List.replicate 1024 0)
    iocp := [0, 1]
    live := 2
    reads := [0, 1024]
    hashed := []
    out := [] }

/-- The device whose every byte holds the number of its sector. -/
def demoDevice (i : Nat) : Nat := (i / 512) % 256

/-- A stand-in digest function: length and sum of the chunk. -/
def demoSHA1 (bytes : List Nat) : List Nat := [bytes.length, bytes.sum]

/-- Both workers hash two blocks each. -/
def demoSchedule : List Event :=
  [.completion 0 true, .completion 1 true, .completion 0 true, .completion 1 true]

def demoFinal : State :=
  { BlockPtr := 6
    IoRequest := demoSlots 2048 (deviceBytes demoDevice 2048 1024)
      3072 (deviceBytes demoDevice 3072 1024)
    iocp := []
    live := 0
    reads := [0, 1024, 2048, 3072]
    hashed := [0, 1024, 2048, 3072]
    out := [(0, [512, 0]), (20, [512, 512]), (40, [512, 1024]), (60, [512, 1536]),
            (80, [512, 2048]), (100, [512, 2560]), (120, [512, 3072]),
            (140, [512, 3584])] }

/-- The same run with a single worker (`/threads:1`). -/
def soloEnv : Env :=
  okEnv { disk := true, out := true, align := some 512, threads := some 1,
          iosize := some 1024, iodepth := some 2, bytes := none } 3 4096

def soloParams : Params := { demoParams with THREAD_COUNT := 1 }

def soloStart : State := { demoStart with live := 1 }

/-- The worker hashes three blocks and leaves at the first exhausted cursor. -/
def soloSchedule : List Event :=
  [.completion 0 true, .completion 1 true, .completion 0 true]

def soloFinal : State :=
  { BlockPtr := 5
    IoRequest := demoSlots 2048 (deviceBytes demoDevice 2048 1024)
      3072 (deviceBytes demoDevice 1024 1024)
    iocp := [1]
    live := 0
    reads := [0, 1024, 2048, 3072]
    hashed := [0, 1024, 2048]
    out := [(0, [512, 0]), (20, [512, 512]), (40, [512, 1024]), (60, [512, 1536]),
            (80, [512, 2048]), (100, [512, 2560])] }

/-- The run of `demoEnv` on a device of five sectors, 2560 bytes: the range
is rounded up to three blocks, and the last block ends 512 bytes past the
device. -/
def tailEnv : Env :=
  okEnv { disk := true, out := true, align := some 512, threads := some 2,
          iosize := some 1024, iodepth := some 2, bytes := none } 3 2560

def tailParams : Params :=
  { demoParams with DISK_BYTES := 3072, BlockCount := 3, ChunkTotal := 120,
                    TrueDiskSize := 2560 }

/-- The first worker hashes block 0 and claims block 2 for slot 0; the second
hashes block 1 and leaves. -/
def tailPrefix : List Event :=
  [.completion 0 true, .completion 1 true]

/-- The first worker then hashes block 2 and leaves. -/
def tailSchedule : List Event :=
  [.completion 0 true, .completion 1 true, .completion 0 true]

def tailMid : State :=
  { BlockPtr := 4
    IoRequest := demoSlots 2048 (deviceBytes demoDevice 0 1024)
      1024 (deviceBytes demoDevice 1024 1024)
    iocp := [0]
    live := 1
    reads := [0, 1024, 2048]
    hashed := [0, 1024]
    out := [(0, [512, 0]), (20, [512, 512]), (40, [512, 1024]), (60, [512, 1536])] }

/-- The read of block 2 has brought the 512 bytes the device has there; the
second half of the buffer still holds sector 1, of the read of block 0. -/
def tailFinal : State :=
  { BlockPtr := 5
    IoRequest := demoSlots 2048 (deviceBytes demoDevice 2048 512 ++ deviceBytes demoDevice 512 512)
      1024 (deviceBytes demoDevice 1024 1024)
    iocp := []
    live := 0
    reads := [0, 1024, 2048]
    hashed := [0, 1024, 2048]
    out := [(0, [512, 0]), (20, [512, 512]), (40, [512, 1024]), (60, [512, 1536]),
            (80, [512, 2048]), (100, [512, 512])] }

/-- Scenario 1 of the specification with the I/O size left at its default of
65536: the command line `/disk:.. /out:.. /align:1024` on a 1 MiB device with
eight cores. -/
def smallEnv : Env :=
  okEnv { disk := true, out := true, align := some 1024, threads := none,
          iosize := none, iodepth := none, bytes := none } 0xFF 0x100000

/-- Scenario 1 of the specification with the I/O size spelled out:
`/disk:.. /out:.. /align:1024 /iosize:65536`. -/
def spelledEnv : Env :=
  okEnv { disk := true, out := true, align := some 1024, threads := none,
          iosize := some 65536, iodepth := none, bytes := none } 0xFF 0x100000

def spelledParams : Params :=
  { IO_BLOCK_SZ := 65536
    QUEUE_DEPTH := 0
    CHUNK_ALIGN := 1024
    THREAD_COUNT := 8
    DISK_BYTES := 0x100000
    BLOCK_CHUNKS := 64
    BlockCount := 16
    ChunkTotal := 20480
    TrueDiskSize := 0x100000 }

/-- Eight workers and no read in flight. -/
def spelledStart : State := { State.initial with live := 8 }

/-- A command line without `/align`. -/
def noAlignEnv : Env :=
  okEnv { disk := true, out := true, align := none, threads := none,
          iosize := none, iodepth := none, bytes := none } 0xFF 0x100000

/-- The command line `/align:0`. -/
def zeroAlignEnv : Env :=
  okEnv { disk := true, out := true, align := some 0, threads := none,
          iosize := none, iodepth := none, bytes := none } 0xFF 0x100000

/-- The flags `/iodepth:2000 /threads:100 /align:65536` on a 256 MiB device
(4096 blocks) with eight cores. -/
def deepEnv : Env :=
  okEnv { disk := true, out := true, align := some 65536, threads := some 100,
          iosize := none, iodepth := some 2000, bytes := none } 0xFF 0x10000000

/-- The small run of `demoEnv` with `/threads:100` requested on two cores. -/
def manyThreadsEnv : Env :=
  okEnv { disk := true, out := true, align := some 512, threads := some 100,
          iosize := some 1024, iodepth := some 2, bytes := none } 3 4096

/-! ## Predicates of the proofs -/

/-- What `Entry` has established about the parameters when the pipeline
starts. -/
structure Params.Valid (p : Params) : Prop where
  align_pos : 0 < p.CHUNK_ALIGN
  align_le : p.CHUNK_ALIGN ≤ p.IO_BLOCK_SZ
  divides : p.IO_BLOCK_SZ % p.CHUNK_ALIGN = 0
  chunks : p.BLOCK_CHUNKS = p.IO_BLOCK_SZ / p.CHUNK_ALIGN
  blocks : p.BlockCount = p.DISK_BYTES / p.IO_BLOCK_SZ
  bytes_lt : p.DISK_BYTES < U64
  total : p.ChunkTotal = chunkTotal p.DISK_BYTES p.CHUNK_ALIGN
  threads_le : p.THREAD_COUNT ≤ MAX_THREADS
  depth_le : p.QUEUE_DEPTH ≤ MAX_QUEUE

/-- The offsets at which `hashLoop` writes: `n` digests from `pHash` on. -/
def offsetLoop : Nat → Nat → List Nat
  | 0, _ => []
  | n + 1, pHash => pHash :: offsetLoop n ((pHash + 20) % U64)

/-- The offsets at which `hashBlock` writes for a slot that read at `off`. -/
def blockOffsets (p : Params) (off : Nat) : List Nat :=
  offsetLoop p.BLOCK_CHUNKS ((off / p.CHUNK_ALIGN * 20) % U64)

/-- The slot array differs from that of `s` at most in slot `slot`. -/
def SameSlots (s : State) (slot : Nat) (req : List IRP) : Prop :=
  req.length = s.IoRequest.length ∧ ∀ j, j ≠ slot → req[j]? = s.IoRequest[j]?

/-- The device offset recorded in a request slot. -/
def slotOffset (req : List IRP) (slot : Nat) : Nat :=
  match req[slot]? with
  | some pIRP => QuadPart pIRP.ov
  | none => 0

/-- Device offsets of the reads in flight. -/
def pending (req : List IRP) (port : List Nat) : List Nat :=
  port.map (slotOffset req)

/-- Structural invariant: the slots in flight are distinct entries of the
slot array, the reads in flight and the reads hashed are among the reads
issued (each read counted once), and the reads issued are distinct blocks
below the cursor. -/
structure Inv (p : Params) (s : State) : Prop where
  slots_len : s.IoRequest.length = MAX_QUEUE
  port_nodup : s.iocp.Nodup
  port_lt : ∀ slot ∈ s.iocp, slot < MAX_QUEUE
  perm : (pending s.IoRequest s.iocp ++ s.hashed).Subperm s.reads
  reads_nodup : s.reads.Nodup
  reads_block : ∀ r ∈ s.reads,
    ∃ idx, idx < s.BlockPtr ∧ idx < p.BlockCount ∧ r = idx * p.IO_BLOCK_SZ
  reads_cursor : s.reads.length ≤ s.BlockPtr
  reads_count : s.reads.length ≤ p.BlockCount

/-- The three ways a worker iteration that dequeued a completion can end:
the cursor is exhausted, the new read is refused, or the new read is issued.
`pIRP` is the slot with its read completed, `req` the slot array at the end. -/
inductive Resubmit (p : Params) (SHA1 : List Nat → List Nat)
    (s : State) (slot : Nat) (a : Bool) (pIRP : IRP) (s1 : State) : Prop where
  | drained (req : List IRP) (hreq : SameSlots s slot req) (h : p.BlockCount ≤ s.BlockPtr)
      (e : s1 = { s with
        BlockPtr := (s.BlockPtr + 1) % U64
        IoRequest := req
        iocp := s.iocp.erase slot
        live := s.live - 1
        hashed := s.hashed ++ [QuadPart pIRP.ov]
        out := s.out ++ hashBlock p SHA1 pIRP })
  | rejected (req : List IRP) (hreq : SameSlots s slot req) (h : s.BlockPtr < p.BlockCount)
      (ha : a = false)
      (e : s1 = { s with
        BlockPtr := (s.BlockPtr + 1) % U64
        IoRequest := req
        iocp := s.iocp.erase slot
        live := s.live - 1
        hashed := s.hashed ++ [QuadPart pIRP.ov]
        out := s.out ++ hashBlock p SHA1 pIRP })
  | submitted (req : List IRP) (hreq : SameSlots s slot req) (h : s.BlockPtr < p.BlockCount)
      (ha : a = true)
      (e : s1 = { s with
        BlockPtr := (s.BlockPtr + 1) % U64
        IoRequest := req
        iocp := s.iocp.erase slot ++ [slot]
        reads := s.reads ++ [QuadPart (diskAddr p s.BlockPtr)]
        hashed := s.hashed ++ [QuadPart pIRP.ov]
        out := s.out ++ hashBlock p SHA1 pIRP })

/-- Counting invariant of a run started by `Entry`: the cursor runs past
`BlockCount` once per exited worker at most, one block is hashed per cursor
step, and a worker that leaves takes at most one read out of flight. -/
structure Cnt (p : Params) (s : State) : Prop where
  cursor : s.BlockPtr + s.live ≤ p.BlockCount + p.THREAD_COUNT
  live_le : s.live ≤ p.THREAD_COUNT
  hashed : s.hashed.length + p.QUEUE_DEPTH = s.BlockPtr
  port : s.live + p.QUEUE_DEPTH ≤ s.iocp.length + p.THREAD_COUNT

/-- The counting invariant of a run without I/O failure. -/
structure CntNF (p : Params) (s : State) : Prop where
  below : s.BlockPtr ≤ p.BlockCount → s.live = p.THREAD_COUNT
  above : p.BlockCount ≤ s.BlockPtr → s.BlockPtr + s.live = p.BlockCount + p.THREAD_COUNT
  port : s.live + p.QUEUE_DEPTH = s.iocp.length + p.THREAD_COUNT
  reads : s.reads =
    (List.range (min s.BlockPtr p.BlockCount)).map (fun idx => idx * p.IO_BLOCK_SZ)

/-- The offsets in the output log are those of the hashed blocks, in order. -/
def OutInv (p : Params) (s : State) : Prop :=
  s.out.map Prod.fst = s.hashed.flatMap (blockOffsets p)

/-- Everything that holds in every state of a run started by `Entry`. -/
structure Good (p : Params) (s : State) : Prop where
  inv : Inv p s
  cnt : Cnt p s
  outInv : OutInv p s

/-- State of the initial submission loop when its variable is `i`. -/
structure Init (p : Params) (i : Nat) (s : State) : Prop where
  inv : Inv p s
  cursor : s.BlockPtr = i
  le : i ≤ p.BlockCount
  port : s.iocp = List.range i
  live : s.live = 0
  reads : s.reads = (List.range i).map (fun idx => idx * p.IO_BLOCK_SZ)
  hashed : s.hashed = []
  out : s.out = []

/-! ## Facts about the arithmetic -/

theorem popcnt64_le (m : Nat) : popcnt64 m ≤ 64 := by
  unfold popcnt64
  have h := List.length_filter_le (fun i => m.testBit i) (List.range 64)
  simpa using h

theorem threadCount_le (t m : Nat) : threadCount t m ≤ popcnt64 m := by
  unfold threadCount
  simp only
  split_ifs <;> omega

theorem QuadPart_diskAddr (p : Params) (idx : Nat) (h : idx * p.IO_BLOCK_SZ < U64) :
    QuadPart (diskAddr p idx) = idx * p.IO_BLOCK_SZ := by
  unfold QuadPart diskAddr
  simp only [Nat.mod_eq_of_lt h]
  unfold U32
  omega

theorem ROUND_UP_lt (n m : Nat) : ROUND_UP n m < U64 := by
  unfold ROUND_UP
  exact Nat.mod_lt _ (by unfold U64; omega)

/-- The rounding of `diskBytes` when nothing wraps. -/
theorem diskBytes_clamped (R D io : Nat) (hR : D < R) (hD : D < 2 ^ 63) (hio : io < U32)
    (hpos : 0 < io) : diskBytes R D io = (D + io - 1) / io * io := by
  unfold diskBytes
  have e1 : (if R > D then D else R) = D := if_pos hR
  simp only [e1, ite_self]
  unfold ROUND_UP
  unfold U32 at hio
  have h1 : (D + io) % U64 = D + io := Nat.mod_eq_of_lt (by unfold U64; omega)
  have h2 : (D + io + (U64 - 1)) % U64 = D + io - 1 := by
    unfold U64; omega
  rw [h1, h2]
  apply Nat.mod_eq_of_lt
  have h3 := Nat.div_mul_le_self (D + io - 1) io
  unfold U64
  omega

theorem Params.Valid.size_pos {p : Params} (hv : p.Valid) : 0 < p.IO_BLOCK_SZ :=
  Nat.lt_of_lt_of_le hv.align_pos hv.align_le

theorem Params.Valid.size_eq {p : Params} (hv : p.Valid) :
    p.BLOCK_CHUNKS * p.CHUNK_ALIGN = p.IO_BLOCK_SZ := by
  rw [hv.chunks]
  exact Nat.div_mul_cancel (Nat.dvd_of_mod_eq_zero hv.divides)

theorem Params.Valid.chunks_pos {p : Params} (hv : p.Valid) : 0 < p.BLOCK_CHUNKS := by
  rcases Nat.eq_zero_or_pos p.BLOCK_CHUNKS with h | h
  · have h1 := hv.size_eq
    have h2 := hv.size_pos
    rw [h, Nat.zero_mul] at h1
    omega
  · exact h

/-- A claimed block lies inside the byte range. -/
theorem Params.Valid.block_le {p : Params} (hv : p.Valid) {idx : Nat}
    (h : idx < p.BlockCount) : idx * p.IO_BLOCK_SZ + p.IO_BLOCK_SZ ≤ p.DISK_BYTES := by
  have h1 : (idx + 1) * p.IO_BLOCK_SZ ≤ p.BlockCount * p.IO_BLOCK_SZ :=
    Nat.mul_le_mul_right _ h
  have h2 : p.BlockCount * p.IO_BLOCK_SZ ≤ p.DISK_BYTES := by
    rw [hv.blocks]
    exact Nat.div_mul_le_self _ _
  have h3 : (idx + 1) * p.IO_BLOCK_SZ = idx * p.IO_BLOCK_SZ + p.IO_BLOCK_SZ := by ring
  omega

theorem Params.Valid.block_lt {p : Params} (hv : p.Valid) {idx : Nat}
    (h : idx < p.BlockCount) : idx * p.IO_BLOCK_SZ < U64 := by
  have h1 := hv.block_le h
  have h2 := hv.bytes_lt
  have h3 := hv.size_pos
  omega

/-- The chunks of all blocks fit in the chunk count of the byte range. -/
theorem Params.Valid.chunks_le {p : Params} (hv : p.Valid) :
    p.BlockCount * p.BLOCK_CHUNKS ≤ p.DISK_BYTES / p.CHUNK_ALIGN := by
  rw [Nat.le_div_iff_mul_le hv.align_pos]
  have h2 : p.BlockCount * p.IO_BLOCK_SZ ≤ p.DISK_BYTES := by
    rw [hv.blocks]
    exact Nat.div_mul_le_self _ _
  have h3 : p.BlockCount * p.BLOCK_CHUNKS * p.CHUNK_ALIGN
      = p.BlockCount * p.IO_BLOCK_SZ := by
    rw [Nat.mul_assoc, hv.size_eq]
  omega

/-- The chunk index of a block offset. -/
theorem Params.Valid.chunk_base {p : Params} (hv : p.Valid) (idx : Nat) :
    idx * p.IO_BLOCK_SZ / p.CHUNK_ALIGN = idx * p.BLOCK_CHUNKS := by
  rw [← hv.size_eq, ← Nat.mul_assoc]
  exact Nat.mul_div_cancel _ hv.align_pos

/-- When the output size fits in 64 bits the cursor cannot wrap. -/
theorem Params.Valid.cursor_fits {p : Params} (hv : p.Valid)
    (hfit : p.DISK_BYTES / p.CHUNK_ALIGN * 20 < U64) :
    p.BlockCount + p.THREAD_COUNT < U64 := by
  have h1 := hv.chunks_le
  have h2 : p.BlockCount * 1 ≤ p.BlockCount * p.BLOCK_CHUNKS :=
    Nat.mul_le_mul_left _ hv.chunks_pos
  have h3 := hv.threads_le
  unfold MAX_THREADS at h3
  unfold U64 at hfit ⊢
  omega

/-! ## Facts about the hashing loop -/

theorem length_hashLoop (SHA1 : List Nat → List Nat) (a n : Nat) :
    ∀ (h : Nat) (d : List Nat), (hashLoop SHA1 a n h d).length = n := by
  induction n with
  | zero => intro h d; rfl
  | succ n ih => intro h d; simp [hashLoop, ih]

theorem map_fst_hashLoop (SHA1 : List Nat → List Nat) (a n : Nat) :
    ∀ (h : Nat) (d : List Nat), (hashLoop SHA1 a n h d).map Prod.fst = offsetLoop n h := by
  induction n with
  | zero => intro h d; rfl
  | succ n ih => intro h d; simp [hashLoop, offsetLoop, ih]

theorem length_offsetLoop (n : Nat) : ∀ h : Nat, (offsetLoop n h).length = n := by
  induction n with
  | zero => intro h; rfl
  | succ n ih => intro h; simp [offsetLoop, ih]

/-- Without wrap the loop writes at `h`, `h + 20`, `h + 40`, ... -/
theorem offsetLoop_eq (n : Nat) :
    ∀ h : Nat, h + 20 * n ≤ U64 →
      offsetLoop n h = (List.range n).map (fun i => h + 20 * i) := by
  induction n with
  | zero => intro h _; rfl
  | succ n ih =>
    intro h hle
    rcases Nat.eq_zero_or_pos n with h0 | hpos
    · subst h0
      simp [offsetLoop, List.range_succ]
    · have hm : (h + 20) % U64 = h + 20 := Nat.mod_eq_of_lt (by omega)
      rw [offsetLoop, hm, ih (h + 20) (by omega), List.range_succ_eq_map, List.map_cons,
        List.map_map]
      congr 1
      apply List.map_congr_left
      intro i _
      simp only [Function.comp_apply]
      omega

/-- The bytes hashed by the loop: digest `i` is that of the `i`-th run of `a`
bytes of the buffer. -/
theorem getElem?_hashLoop (SHA1 : List Nat → List Nat) (a n : Nat) :
    ∀ (i h : Nat) (d : List Nat), i < n → h + 20 * n ≤ U64 →
      (hashLoop SHA1 a n h d)[i]? = some (h + 20 * i, SHA1 ((d.drop (i * a)).take a)) := by
  induction n with
  | zero => intro i h d hi; omega
  | succ n ih =>
    intro i h d hi hle
    cases i with
    | zero => simp [hashLoop]
    | succ i =>
      have hi1 : i < n := by omega
      have hm : (h + 20) % U64 = h + 20 := Nat.mod_eq_of_lt (by omega)
      simp only [hashLoop, List.getElem?_cons_succ]
      rw [hm, ih i (h + 20) (d.drop a) hi1 (by omega), List.drop_drop]
      have e1 : h + 20 + 20 * i = h + 20 * (i + 1) := by ring
      have e2 : a + i * a = (i + 1) * a := by ring
      have e3 : i * a + a = (i + 1) * a := by ring
      simp [e1, e2, e3]

theorem deviceBytes_drop_take (device : Nat → Nat) (off len i a : Nat)
    (h : i * a + a ≤ len) :
    ((deviceBytes device off len).drop (i * a)).take a = deviceBytes device (off + i * a) a := by
  unfold deviceBytes
  apply List.ext_getElem?
  intro j
  by_cases hj : j < a
  · rw [List.getElem?_take_of_lt hj, List.getElem?_drop, List.getElem?_map, List.getElem?_map,
      List.getElem?_range hj, List.getElem?_range (by omega)]
    simp [Nat.add_assoc]
  · have hj1 : a ≤ j := by omega
    rw [List.getElem?_take_eq_none hj1, List.getElem?_eq_none (by simpa using hj1)]

/-- A chunk that lies inside the device is, after the read has completed,
the device's bytes, whatever the buffer held before. -/
theorem completeRead_chunk (p : Params) (device : Nat → Nat) (q : IRP) (i a : Nat)
    (hio : i * a + a ≤ p.IO_BLOCK_SZ)
    (hin : QuadPart q.ov + i * a + a ≤ p.TrueDiskSize) :
    ((completeRead p device q).pData.drop (i * a)).take a
      = deviceBytes device (QuadPart q.ov + i * a) a := by
  unfold completeRead
  simp only
  have hn : i * a + a ≤ min p.IO_BLOCK_SZ (p.TrueDiskSize - QuadPart q.ov) := by
    rw [Nat.le_min]
    omega
  generalize min p.IO_BLOCK_SZ (p.TrueDiskSize - QuadPart q.ov) = n at hn
  have hlen : (deviceBytes device (QuadPart q.ov) n).length = n := by
    simp [deviceBytes]
  rw [List.drop_append_of_le_length (by rw [hlen]; omega),
    List.take_append_of_le_length (by rw [List.length_drop, hlen]; omega)]
  exact deviceBytes_drop_take device _ n i a hn

/-- The read does not touch the offset words of the slot. -/
theorem completeRead_ov (p : Params) (device : Nat → Nat) (q : IRP) :
    (completeRead p device q).ov = q.ov := rfl

theorem map_fst_hashBlock (p : Params) (SHA1 : List Nat → List Nat) (x : IRP) :
    (hashBlock p SHA1 x).map Prod.fst = blockOffsets p (QuadPart x.ov) := by
  unfold hashBlock blockOffsets
  exact map_fst_hashLoop _ _ _ _ _

theorem length_hashBlock (p : Params) (SHA1 : List Nat → List Nat) (x : IRP) :
    (hashBlock p SHA1 x).length = p.BLOCK_CHUNKS := by
  unfold hashBlock
  exact length_hashLoop _ _ _ _ _

theorem length_blockOffsets (p : Params) (off : Nat) :
    (blockOffsets p off).length = p.BLOCK_CHUNKS := by
  unfold blockOffsets
  exact length_offsetLoop _ _

/-- The first digest of block `idx` goes to byte `idx * BLOCK_CHUNKS * 20`. -/
theorem Params.Valid.hash_base {p : Params} (hv : p.Valid)
    (hfit : p.DISK_BYTES / p.CHUNK_ALIGN * 20 < U64) {idx : Nat} (h : idx < p.BlockCount) :
    (idx * p.IO_BLOCK_SZ / p.CHUNK_ALIGN * 20) % U64 = idx * p.BLOCK_CHUNKS * 20 := by
  rw [hv.chunk_base]
  apply Nat.mod_eq_of_lt
  have h1 : idx * p.BLOCK_CHUNKS ≤ p.BlockCount * p.BLOCK_CHUNKS :=
    Nat.mul_le_mul_right _ (Nat.le_of_lt h)
  have h2 := hv.chunks_le
  omega

/-- The digests of block `idx` end inside the 64-bit range. -/
theorem Params.Valid.hash_end {p : Params} (hv : p.Valid)
    (hfit : p.DISK_BYTES / p.CHUNK_ALIGN * 20 < U64) {idx : Nat} (h : idx < p.BlockCount) :
    idx * p.BLOCK_CHUNKS * 20 + 20 * p.BLOCK_CHUNKS ≤ U64 := by
  have h1 : (idx + 1) * p.BLOCK_CHUNKS ≤ p.BlockCount * p.BLOCK_CHUNKS :=
    Nat.mul_le_mul_right _ h
  have h2 : (idx + 1) * p.BLOCK_CHUNKS = idx * p.BLOCK_CHUNKS + p.BLOCK_CHUNKS := by ring
  have h3 := hv.chunks_le
  omega

/-- The digests of a completed slot that read block `idx`: digest `i` goes
to the slot of chunk `idx * BLOCK_CHUNKS + i` and is that of the `i`-th run
of `CHUNK_ALIGN` bytes of the buffer. -/
theorem getElem?_hashBlock {p : Params} (hv : p.Valid)
    (hfit : p.DISK_BYTES / p.CHUNK_ALIGN * 20 < U64)
    (SHA1 : List Nat → List Nat) (x : IRP) {idx i : Nat}
    (hx : QuadPart x.ov = idx * p.IO_BLOCK_SZ)
    (hidx : idx < p.BlockCount) (hi : i < p.BLOCK_CHUNKS) :
    (hashBlock p SHA1 x)[i]? =
      some ((idx * p.BLOCK_CHUNKS + i) * 20,
        SHA1 ((x.pData.drop (i * p.CHUNK_ALIGN)).take p.CHUNK_ALIGN)) := by
  unfold hashBlock
  simp only
  rw [hx, hv.hash_base hfit hidx,
    getElem?_hashLoop _ _ _ _ _ _ hi (hv.hash_end hfit hidx)]
  have e1 : idx * p.BLOCK_CHUNKS * 20 + 20 * i = (idx * p.BLOCK_CHUNKS + i) * 20 := by ring
  rw [e1]

theorem blockOffsets_eq {p : Params} (hv : p.Valid)
    (hfit : p.DISK_BYTES / p.CHUNK_ALIGN * 20 < U64) {idx : Nat}
    (hidx : idx < p.BlockCount) :
    blockOffsets p (idx * p.IO_BLOCK_SZ) =
      (List.range p.BLOCK_CHUNKS).map (fun i => idx * p.BLOCK_CHUNKS * 20 + 20 * i) := by
  unfold blockOffsets
  rw [hv.hash_base hfit hidx, offsetLoop_eq _ _ (hv.hash_end hfit hidx)]

/-- Digest offsets of one block are distinct, and those of two different
blocks are disjoint. -/
theorem nodup_blockOffsets {p : Params} (hv : p.Valid)
    (hfit : p.DISK_BYTES / p.CHUNK_ALIGN * 20 < U64) {idx : Nat}
    (hidx : idx < p.BlockCount) :
    (blockOffsets p (idx * p.IO_BLOCK_SZ)).Nodup := by
  rw [blockOffsets_eq hv hfit hidx]
  apply List.Nodup.map _ (List.nodup_range _)
  intro a b hab
  simp only at hab
  omega

theorem disjoint_blockOffsets {p : Params} (hv : p.Valid)
    (hfit : p.DISK_BYTES / p.CHUNK_ALIGN * 20 < U64) {idx jdx : Nat}
    (hidx : idx < p.BlockCount) (hjdx : jdx < p.BlockCount) (hne : idx ≠ jdx) :
    List.Disjoint (blockOffsets p (idx * p.IO_BLOCK_SZ))
      (blockOffsets p (jdx * p.IO_BLOCK_SZ)) := by
  rw [blockOffsets_eq hv hfit hidx, blockOffsets_eq hv hfit hjdx]
  intro x hx hy
  simp only [List.mem_map, List.mem_range] at hx hy
  obtain ⟨a, ha, rfl⟩ := hx
  obtain ⟨b, hb, hab⟩ := hy
  rcases Nat.lt_or_gt_of_ne hne with h | h
  · have h1 : (idx + 1) * p.BLOCK_CHUNKS ≤ jdx * p.BLOCK_CHUNKS :=
      Nat.mul_le_mul_right _ h
    have h2 : (idx + 1) * p.BLOCK_CHUNKS = idx * p.BLOCK_CHUNKS + p.BLOCK_CHUNKS := by ring
    omega
  · have h1 : (jdx + 1) * p.BLOCK_CHUNKS ≤ idx * p.BLOCK_CHUNKS :=
      Nat.mul_le_mul_right _ h
    have h2 : (jdx + 1) * p.BLOCK_CHUNKS = jdx * p.BLOCK_CHUNKS + p.BLOCK_CHUNKS := by ring
    omega

theorem length_flatMap_const {α β : Type} (f : α → List β) (n : Nat)
    (hf : ∀ a, (f a).length = n) : ∀ l : List α, (l.flatMap f).length = l.length * n := by
  intro l
  induction l with
  | nil => simp
  | cons a l ih =>
    rw [List.flatMap_cons, List.length_append, hf, ih, List.length_cons]
    ring

/-! ## SubmitIo and the structural invariant -/

theorem slotOffset_set_self (req : List IRP) (slot : Nat) (x : IRP)
    (h : slot < req.length) : slotOffset (req.set slot x) slot = QuadPart x.ov := by
  unfold slotOffset
  rw [List.getElem?_set_self h]

theorem pending_set (req : List IRP) (port : List Nat) (slot : Nat) (x : IRP)
    (h : slot ∉ port) : pending (req.set slot x) port = pending req port := by
  unfold pending
  apply List.map_congr_left
  intro a ha
  have hne : slot ≠ a := fun e => h (e ▸ ha)
  unfold slotOffset
  rw [List.getElem?_set_ne hne]

theorem SubmitIo_drained (p : Params) (a : Bool) (s : State) (slot : Nat)
    (h : p.BlockCount ≤ s.BlockPtr) :
    SubmitIo p a s slot = (false, { s with BlockPtr := (s.BlockPtr + 1) % U64 }) := by
  unfold SubmitIo
  simp [h]

theorem SubmitIo_rejected (p : Params) (s : State) (slot : Nat)
    (h : s.BlockPtr < p.BlockCount) :
    SubmitIo p false s slot = (false, { s with
      BlockPtr := (s.BlockPtr + 1) % U64
      IoRequest := s.IoRequest.set slot
        { slotAt s.IoRequest slot with ov := diskAddr p s.BlockPtr } }) := by
  unfold SubmitIo
  simp [Nat.not_le.mpr h]

theorem SubmitIo_accepted (p : Params) (s : State) (slot : Nat)
    (h : s.BlockPtr < p.BlockCount) :
    SubmitIo p true s slot = (true, { s with
      BlockPtr := (s.BlockPtr + 1) % U64
      IoRequest := s.IoRequest.set slot
        { slotAt s.IoRequest slot with ov := diskAddr p s.BlockPtr }
      iocp := s.iocp ++ [slot]
      reads := s.reads ++ [QuadPart (diskAddr p s.BlockPtr)] }) := by
  unfold SubmitIo
  simp [Nat.not_le.mpr h]

/-- The cursor moves by one in every call. -/
theorem SubmitIo_BlockPtr (p : Params) (a : Bool) (s : State) (slot : Nat) :
    (SubmitIo p a s slot).2.BlockPtr = (s.BlockPtr + 1) % U64 := by
  unfold SubmitIo
  simp only
  split_ifs <;> rfl

/-- The call `SubmitIo` does not touch the output map. -/
theorem SubmitIo_out (p : Params) (a : Bool) (s : State) (slot : Nat) :
    (SubmitIo p a s slot).2.out = s.out := by
  unfold SubmitIo
  simp only
  split_ifs <;> rfl

theorem SubmitIo_Inv {p : Params} (hv : p.Valid) (a : Bool) {s : State} {slot : Nat}
    (hI : Inv p s) (hslot : slot < MAX_QUEUE) (hn : slot ∉ s.iocp)
    (hw : s.BlockPtr + 1 < U64) : Inv p (SubmitIo p a s slot).2 := by
  have hmod : (s.BlockPtr + 1) % U64 = s.BlockPtr + 1 := Nat.mod_eq_of_lt hw
  have hblock : ∀ r ∈ s.reads,
      ∃ idx, idx < s.BlockPtr + 1 ∧ idx < p.BlockCount ∧ r = idx * p.IO_BLOCK_SZ := by
    intro r hr
    obtain ⟨idx, h1, h2, h3⟩ := hI.reads_block r hr
    exact ⟨idx, by omega, h2, h3⟩
  by_cases hc : p.BlockCount ≤ s.BlockPtr
  · rw [SubmitIo_drained p a s slot hc, hmod]
    exact
      { slots_len := hI.slots_len
        port_nodup := hI.port_nodup
        port_lt := hI.port_lt
        perm := hI.perm
        reads_nodup := hI.reads_nodup
        reads_block := hblock
        reads_cursor := Nat.le_succ_of_le hI.reads_cursor
        reads_count := hI.reads_count }
  · have hlt : s.BlockPtr < p.BlockCount := Nat.not_le.mp hc
    cases a with
    | false =>
      rw [SubmitIo_rejected p s slot hlt, hmod]
      exact
        { slots_len := by simpa using hI.slots_len
          port_nodup := hI.port_nodup
          port_lt := hI.port_lt
          perm := by
            show (pending (s.IoRequest.set slot _) s.iocp ++ s.hashed).Subperm s.reads
            rw [pending_set _ _ _ _ hn]
            exact hI.perm
          reads_nodup := hI.reads_nodup
          reads_block := hblock
          reads_cursor := Nat.le_succ_of_le hI.reads_cursor
          reads_count := hI.reads_count }
    | true =>
      rw [SubmitIo_accepted p s slot hlt, hmod]
      have hq : QuadPart (diskAddr p s.BlockPtr) = s.BlockPtr * p.IO_BLOCK_SZ :=
        QuadPart_diskAddr p _ (hv.block_lt hlt)
      have hlen : slot < s.IoRequest.length := by rw [hI.slots_len]; exact hslot
      have hfresh : s.BlockPtr * p.IO_BLOCK_SZ ∉ s.reads := by
        intro hmem
        obtain ⟨idx, h1, _, h3⟩ := hI.reads_block _ hmem
        have h4 : idx = s.BlockPtr := Nat.eq_of_mul_eq_mul_right hv.size_pos h3.symm
        omega
      exact
        { slots_len := by simpa using hI.slots_len
          port_nodup := by
            show (s.iocp ++ [slot]).Nodup
            rw [List.nodup_append]
            refine ⟨hI.port_nodup, List.nodup_singleton _, ?_⟩
            intro x hx hy
            rw [List.mem_singleton] at hy
            exact hn (hy ▸ hx)
          port_lt := by
            intro x hx
            have hx1 : x ∈ s.iocp ++ [slot] := hx
            rw [List.mem_append, List.mem_singleton] at hx1
            rcases hx1 with h | h
            · exact hI.port_lt x h
            · rw [h]; exact hslot
          perm := by
            show (pending (s.IoRequest.set slot _) (s.iocp ++ [slot]) ++ s.hashed).Subperm
              (s.reads ++ [QuadPart (diskAddr p s.BlockPtr)])
            have e1 : pending (s.IoRequest.set slot
                  { slotAt s.IoRequest slot with ov := diskAddr p s.BlockPtr })
                (s.iocp ++ [slot])
                = pending s.IoRequest s.iocp ++ [QuadPart (diskAddr p s.BlockPtr)] := by
              unfold pending
              rw [List.map_append, List.map_singleton, slotOffset_set_self _ _ _ hlen]
              congr 1
              exact pending_set _ _ _ _ hn
            rw [e1]
            have h1 : (pending s.IoRequest s.iocp ++ [QuadPart (diskAddr p s.BlockPtr)]
                ++ s.hashed).Perm
                (pending s.IoRequest s.iocp ++ s.hashed
                  ++ [QuadPart (diskAddr p s.BlockPtr)]) := by
              rw [List.append_assoc, List.append_assoc]
              exact List.Perm.append_left _ List.perm_append_comm
            exact h1.subperm.trans ((List.subperm_append_right _).mpr hI.perm)
          reads_nodup := by
            show (s.reads ++ [QuadPart (diskAddr p s.BlockPtr)]).Nodup
            rw [hq, List.nodup_append]
            refine ⟨hI.reads_nodup, List.nodup_singleton _, ?_⟩
            intro x hx hy
            rw [List.mem_singleton] at hy
            exact hfresh (hy ▸ hx)
          reads_block := by
            intro r hr
            have hr1 : r ∈ s.reads ++ [QuadPart (diskAddr p s.BlockPtr)] := hr
            rw [List.mem_append, List.mem_singleton] at hr1
            rcases hr1 with h | h
            · exact hblock r h
            · exact ⟨s.BlockPtr, Nat.lt_succ_self _, hlt, h.trans hq⟩
          reads_cursor := by
            show (s.reads ++ [QuadPart (diskAddr p s.BlockPtr)]).length ≤ s.BlockPtr + 1
            rw [List.length_append, List.length_singleton]
            exact Nat.succ_le_succ hI.reads_cursor
          reads_count := by
            show (s.reads ++ [QuadPart (diskAddr p s.BlockPtr)]).length ≤ p.BlockCount
            rw [List.length_append, List.length_singleton]
            have := hI.reads_cursor
            omega }

/-- Writing a slot that has no read in flight keeps the structural invariant. -/
theorem Inv.set_slot {p : Params} {s : State} (hI : Inv p s) {slot : Nat}
    (hn : slot ∉ s.iocp) (x : IRP) :
    Inv p { s with IoRequest := s.IoRequest.set slot x } :=
  { slots_len := by simpa using hI.slots_len
    port_nodup := hI.port_nodup
    port_lt := hI.port_lt
    perm := by
      show (pending (s.IoRequest.set slot x) s.iocp ++ s.hashed).Subperm s.reads
      rw [pending_set _ _ _ _ hn]
      exact hI.perm
    reads_nodup := hI.reads_nodup
    reads_block := hI.reads_block
    reads_cursor := hI.reads_cursor
    reads_count := hI.reads_count }

/-- Taking a completion off the port and counting it as hashed keeps the
structural invariant. -/
theorem dequeue_Inv0 {p : Params} {s : State} {slot : Nat} {pIRP : IRP}
    (hI : Inv p s) (hmem : slot ∈ s.iocp) (hget : s.IoRequest[slot]? = some pIRP)
    (w : List (Nat × List Nat)) :
    Inv p { s with
      iocp := s.iocp.erase slot
      hashed := s.hashed ++ [QuadPart pIRP.ov]
      out := w } := by
  have hoff : slotOffset s.IoRequest slot = QuadPart pIRP.ov := by
    unfold slotOffset
    rw [hget]
  exact
    { slots_len := hI.slots_len
      port_nodup := hI.port_nodup.erase slot
      port_lt := fun x hx => hI.port_lt x (List.mem_of_mem_erase hx)
      perm := by
        show (pending s.IoRequest (s.iocp.erase slot)
          ++ (s.hashed ++ [QuadPart pIRP.ov])).Subperm s.reads
        have h1 : (pending s.IoRequest s.iocp).Perm
            (QuadPart pIRP.ov :: pending s.IoRequest (s.iocp.erase slot)) := by
          have h2 := (List.perm_cons_erase hmem).map (slotOffset s.IoRequest)
          rw [List.map_cons, hoff] at h2
          exact h2
        have h3 : (pending s.IoRequest (s.iocp.erase slot)
            ++ (s.hashed ++ [QuadPart pIRP.ov])).Perm
            (QuadPart pIRP.ov :: pending s.IoRequest (s.iocp.erase slot) ++ s.hashed) := by
          rw [← List.append_assoc]
          exact List.perm_append_comm.trans (by simp)
        exact (h3.trans (List.Perm.append_right _ h1.symm)).subperm.trans hI.perm
      reads_nodup := hI.reads_nodup
      reads_block := hI.reads_block
      reads_cursor := hI.reads_cursor
      reads_count := hI.reads_count }

/-- Dequeuing a completion, filling its buffer and hashing it keeps the
structural invariant. -/
theorem dequeue_Inv {p : Params} {s : State} {slot : Nat} {pIRP : IRP}
    (hI : Inv p s) (hmem : slot ∈ s.iocp) (hget : s.IoRequest[slot]? = some pIRP)
    (x : IRP) (w : List (Nat × List Nat)) :
    Inv p { s with
      IoRequest := s.IoRequest.set slot x
      iocp := s.iocp.erase slot
      hashed := s.hashed ++ [QuadPart pIRP.ov]
      out := w } := by
  have h0 := dequeue_Inv0 hI hmem hget w
  have hn : slot ∉ s.iocp.erase slot := fun h => (List.Nodup.mem_erase_iff hI.port_nodup).mp h |>.1 rfl
  exact Inv.set_slot h0 hn x

theorem Inv.set_live {p : Params} {s : State} (hI : Inv p s) (n : Nat) :
    Inv p { s with live := n } :=
  { slots_len := hI.slots_len
    port_nodup := hI.port_nodup
    port_lt := hI.port_lt
    perm := hI.perm
    reads_nodup := hI.reads_nodup
    reads_block := hI.reads_block
    reads_cursor := hI.reads_cursor
    reads_count := hI.reads_count }

/-- Dropping packets from the port keeps the structural invariant. -/
theorem Inv.drop {p : Params} {s : State} (hI : Inv p s) {port : List Nat}
    (hs : port.Sublist s.iocp) (n : Nat) : Inv p { s with iocp := port, live := n } :=
  { slots_len := hI.slots_len
    port_nodup := hI.port_nodup.sublist hs
    port_lt := fun x hx => hI.port_lt x (hs.subset hx)
    perm := by
      show (pending s.IoRequest port ++ s.hashed).Subperm s.reads
      have h1 : (pending s.IoRequest port ++ s.hashed).Sublist
          (pending s.IoRequest s.iocp ++ s.hashed) :=
        (hs.map (slotOffset s.IoRequest)).append_right _
      exact h1.subperm.trans hI.perm
    reads_nodup := hI.reads_nodup
    reads_block := hI.reads_block
    reads_cursor := hI.reads_cursor
    reads_count := hI.reads_count }

theorem Inv.hashed_block {p : Params} {s : State} (hI : Inv p s) :
    s.hashed.Nodup ∧ ∀ off ∈ s.hashed,
      ∃ idx, idx < p.BlockCount ∧ off = idx * p.IO_BLOCK_SZ := by
  have h1 : (pending s.IoRequest s.iocp ++ s.hashed).Nodup := by
    obtain ⟨l, hp, hs⟩ := hI.perm
    exact hp.nodup_iff.mp (hI.reads_nodup.sublist hs)
  refine ⟨h1.of_append_right, ?_⟩
  intro off hoff
  have h2 : off ∈ s.reads :=
    hI.perm.subset (List.mem_append_right _ hoff)
  obtain ⟨idx, _, h3, h4⟩ := hI.reads_block off h2
  exact ⟨idx, h3, h4⟩

/-! ## One worker step -/

theorem WorkerEntry_waitFailed {p : Params} {SHA1 : List Nat → List Nat} {device : Nat → Nat}
    {s s1 : State} {lost : Option Nat}
    (h : WorkerEntry p SHA1 device s (.waitFailed lost) = some s1) :
    s.live ≠ 0 ∧ ∃ port, port.Sublist s.iocp ∧ s.iocp.length ≤ port.length + 1 ∧
      s1 = { s with iocp := port, live := s.live - 1 } := by
  cases lost with
  | none =>
    unfold WorkerEntry at h
    simp only at h
    split_ifs at h with h0
    exact ⟨h0, s.iocp, List.Sublist.refl _, Nat.le_succ _, (Option.some.inj h).symm⟩
  | some slot =>
    unfold WorkerEntry at h
    simp only at h
    split_ifs at h with h0 hmem
    refine ⟨h0, s.iocp.erase slot, List.erase_sublist _ _, ?_, (Option.some.inj h).symm⟩
    rw [List.length_erase_of_mem hmem]
    omega

theorem SameSlots.set (s : State) (slot : Nat) (x : IRP) :
    SameSlots s slot (s.IoRequest.set slot x) :=
  ⟨by simp, fun j hj => by rw [List.getElem?_set_ne (Ne.symm hj)]⟩

theorem SameSlots.set_set (s : State) (slot : Nat) (x y : IRP) :
    SameSlots s slot ((s.IoRequest.set slot x).set slot y) :=
  ⟨by simp, fun j hj => by
    rw [List.getElem?_set_ne (Ne.symm hj), List.getElem?_set_ne (Ne.symm hj)]⟩

theorem WorkerEntry_completion {p : Params} {SHA1 : List Nat → List Nat} {device : Nat → Nat}
    {s s1 : State} {slot : Nat} {a : Bool}
    (h : WorkerEntry p SHA1 device s (.completion slot a) = some s1) :
    s.live ≠ 0 ∧ slot ∈ s.iocp ∧ ∃ queued, s.IoRequest[slot]? = some queued ∧
      Resubmit p SHA1 s slot a (completeRead p device queued) s1 := by
  unfold WorkerEntry at h
  simp only at h
  split_ifs at h with h0 hmem
  split at h
  · exact absurd h (by simp)
  · rename_i queued hget
    refine ⟨h0, hmem, queued, hget, ?_⟩
    generalize hs0 : ({ s with
      IoRequest := s.IoRequest.set slot (completeRead p device queued)
      iocp := s.iocp.erase slot
      hashed := s.hashed ++ [QuadPart (completeRead p device queued).ov]
      out := s.out ++ hashBlock p SHA1 (completeRead p device queued) } : State) = s0 at h
    have hb : s0.BlockPtr = s.BlockPtr := by rw [← hs0]
    by_cases hc : p.BlockCount ≤ s.BlockPtr
    · rw [SubmitIo_drained p a s0 slot (hb ▸ hc)] at h
      simp only [Bool.false_eq_true, ↓reduceIte, Option.some.injEq] at h
      subst hs0
      exact .drained _ (SameSlots.set s slot _) hc h.symm
    · have hlt : s.BlockPtr < p.BlockCount := Nat.not_le.mp hc
      cases a with
      | false =>
        rw [SubmitIo_rejected p s0 slot (hb ▸ hlt)] at h
        simp only [Bool.false_eq_true, ↓reduceIte, Option.some.injEq] at h
        subst hs0
        exact .rejected _ (SameSlots.set_set s slot _ _) hlt rfl h.symm
      | true =>
        rw [SubmitIo_accepted p s0 slot (hb ▸ hlt)] at h
        simp only [↓reduceIte, Option.some.injEq] at h
        subst hs0
        exact .submitted _ (SameSlots.set_set s slot _ _) hlt rfl h.symm

theorem WorkerEntry_Inv {p : Params} (hv : p.Valid) {SHA1 : List Nat → List Nat}
    {device : Nat → Nat} {s s1 : State} {e : Event} (hI : Inv p s)
    (hw : s.BlockPtr + 1 < U64) (h : WorkerEntry p SHA1 device s e = some s1) : Inv p s1 := by
  cases e with
  | waitFailed lost =>
    obtain ⟨_, port, hs, _, rfl⟩ := WorkerEntry_waitFailed h
    exact hI.drop hs _
  | completion slot a =>
    unfold WorkerEntry at h
    simp only at h
    split_ifs at h with h0 hmem
    split at h
    · exact absurd h (by simp)
    · rename_i queued hget
      have hD := dequeue_Inv hI hmem hget (completeRead p device queued)
        (s.out ++ hashBlock p SHA1 (completeRead p device queued))
      have hS := SubmitIo_Inv hv a hD (hI.port_lt slot hmem)
        (by
          show slot ∉ s.iocp.erase slot
          rw [hI.port_nodup.mem_erase_iff]
          simp) hw
      split_ifs at h
      · rw [← Option.some.inj h]; exact hS
      · rw [← Option.some.inj h]; exact hS.set_live _

theorem Cnt.no_wrap {p : Params} {s : State} (hC : Cnt p s)
    (hcur : p.BlockCount + p.THREAD_COUNT < U64) (hl : s.live ≠ 0) :
    s.BlockPtr + 1 < U64 := by
  have := hC.cursor
  omega

theorem WorkerEntry_Cnt {p : Params} {SHA1 : List Nat → List Nat} {device : Nat → Nat}
    {s s1 : State} {e : Event} (hcur : p.BlockCount + p.THREAD_COUNT < U64)
    (hC : Cnt p s) (h : WorkerEntry p SHA1 device s e = some s1) : Cnt p s1 := by
  have h1 := hC.cursor
  have h2 := hC.live_le
  have h3 := hC.hashed
  have h4 := hC.port
  cases e with
  | waitFailed lost =>
    obtain ⟨hl, port, _, hlen, rfl⟩ := WorkerEntry_waitFailed h
    constructor <;> simp only <;> omega
  | completion slot a =>
    obtain ⟨hl, hmem, pIRP, _, hr⟩ := WorkerEntry_completion h
    have hmod : (s.BlockPtr + 1) % U64 = s.BlockPtr + 1 :=
      Nat.mod_eq_of_lt (hC.no_wrap hcur hl)
    have hlen := List.length_erase_of_mem hmem
    have hpos : 0 < s.iocp.length := List.length_pos_of_mem hmem
    rcases hr with ⟨_, _, hc, rfl⟩ | ⟨_, _, hc, _, rfl⟩ | ⟨_, _, hc, _, rfl⟩ <;>
      constructor <;>
      simp only [hmod, List.length_append, List.length_singleton, hlen] <;> omega

theorem WorkerEntry_CntNF {p : Params} (hv : p.Valid) {SHA1 : List Nat → List Nat}
    {device : Nat → Nat} {s s1 : State} {slot : Nat}
    (hcur : p.BlockCount + p.THREAD_COUNT < U64) (hC : Cnt p s) (hN : CntNF p s)
    (h : WorkerEntry p SHA1 device s (.completion slot true) = some s1) : CntNF p s1 := by
  have h1 := hN.below
  have h2 := hN.above
  have h3 := hN.port
  have h4 := hN.reads
  obtain ⟨hl, hmem, pIRP, _, hr⟩ := WorkerEntry_completion h
  have hmod : (s.BlockPtr + 1) % U64 = s.BlockPtr + 1 :=
    Nat.mod_eq_of_lt (hC.no_wrap hcur hl)
  have hlen := List.length_erase_of_mem hmem
  have hpos : 0 < s.iocp.length := List.length_pos_of_mem hmem
  rcases hr with ⟨_, _, hc, rfl⟩ | ⟨_, _, hc, ha, _⟩ | ⟨_, _, hc, _, rfl⟩
  · constructor
    · simp only [hmod]; intro; omega
    · simp only [hmod]; intro; omega
    · simp only [hlen]; omega
    · simp only [hmod]
      rw [h4, Nat.min_eq_right hc, Nat.min_eq_right (Nat.le_succ_of_le hc)]
  · exact absurd ha (by simp)
  · constructor
    · simp only [hmod]; intro; omega
    · simp only [hmod]; intro; omega
    · simp only [List.length_append, List.length_singleton, hlen]; omega
    · simp only [hmod]
      rw [h4, Nat.min_eq_left (Nat.le_of_lt hc), Nat.min_eq_left (Nat.succ_le_of_lt hc),
        List.range_succ, List.map_append, List.map_singleton,
        QuadPart_diskAddr p _ (hv.block_lt hc)]

theorem WorkerEntry_OutInv {p : Params} {SHA1 : List Nat → List Nat} {device : Nat → Nat}
    {s s1 : State} {e : Event} (hO : OutInv p s)
    (h : WorkerEntry p SHA1 device s e = some s1) : OutInv p s1 := by
  unfold OutInv at hO ⊢
  cases e with
  | waitFailed lost =>
    obtain ⟨_, port, _, _, rfl⟩ := WorkerEntry_waitFailed h
    exact hO
  | completion slot a =>
    obtain ⟨_, _, queued, _, hr⟩ := WorkerEntry_completion h
    rcases hr with ⟨_, _, _, rfl⟩ | ⟨_, _, _, _, rfl⟩ | ⟨_, _, _, _, rfl⟩ <;>
      simp [hO, List.flatMap_append, map_fst_hashBlock]

/-! ## Runs -/

theorem run_Good {p : Params} (hv : p.Valid) (hcur : p.BlockCount + p.THREAD_COUNT < U64)
    (SHA1 : List Nat → List Nat) (device : Nat → Nat) :
    ∀ (evs : List Event) (s s1 : State), Good p s →
      run p SHA1 device s evs = some s1 → Good p s1 := by
  intro evs
  induction evs with
  | nil =>
    intro s s1 hG h
    simp only [run, Option.some.injEq] at h
    exact h ▸ hG
  | cons e es ih =>
    intro s s1 hG h
    simp only [run] at h
    split at h
    · exact absurd h (by simp)
    · rename_i s2 hstep
      have hl : s.live ≠ 0 := by
        cases e with
        | waitFailed lost => exact (WorkerEntry_waitFailed hstep).1
        | completion slot a => exact (WorkerEntry_completion hstep).1
      exact ih s2 s1
        { inv := WorkerEntry_Inv hv hG.inv (hG.cnt.no_wrap hcur hl) hstep
          cnt := WorkerEntry_Cnt hcur hG.cnt hstep
          outInv := WorkerEntry_OutInv hG.outInv hstep } h

theorem run_CntNF {p : Params} (hv : p.Valid) (hcur : p.BlockCount + p.THREAD_COUNT < U64)
    (SHA1 : List Nat → List Nat) (device : Nat → Nat) :
    ∀ (evs : List Event) (s s1 : State), noFailure evs = true → Cnt p s → CntNF p s →
      run p SHA1 device s evs = some s1 → CntNF p s1 := by
  intro evs
  induction evs with
  | nil =>
    intro s s1 _ _ hN h
    simp only [run, Option.some.injEq] at h
    exact h ▸ hN
  | cons e es ih =>
    intro s s1 hnf hC hN h
    simp only [run] at h
    split at h
    · exact absurd h (by simp)
    · rename_i s2 hstep
      cases e with
      | waitFailed lost => simp [noFailure] at hnf
      | completion slot a =>
        simp only [noFailure, Bool.and_eq_true] at hnf
        obtain ⟨ha, hrest⟩ := hnf
        subst ha
        exact ih s2 s1 hrest (WorkerEntry_Cnt hcur hC hstep)
          (WorkerEntry_CntNF hv hcur hC hN hstep) h

theorem Good.out_length {p : Params} {s : State} (hG : Good p s) :
    s.out.length = s.hashed.length * p.BLOCK_CHUNKS := by
  have hout : s.out.map Prod.fst = s.hashed.flatMap (blockOffsets p) := hG.outInv
  rw [← List.length_map s.out Prod.fst, hout]
  exact length_flatMap_const _ _ (length_blockOffsets p) _

/-- In every state of a run the offsets written are distinct digest slots of
the output map. -/
theorem Good.out_slots {p : Params} {s : State} (hv : p.Valid)
    (hfit : p.DISK_BYTES / p.CHUNK_ALIGN * 20 < U64) (hG : Good p s) :
    (s.out.map Prod.fst).Nodup ∧
      (∀ x ∈ s.out.map Prod.fst, ∃ k, k < p.BlockCount * p.BLOCK_CHUNKS ∧ x = k * 20) ∧
      s.out.length = s.hashed.length * p.BLOCK_CHUNKS := by
  obtain ⟨hnd, hblk⟩ := hG.inv.hashed_block
  have hmap : s.out.map Prod.fst = s.hashed.flatMap (blockOffsets p) := hG.outInv
  refine ⟨?_, ?_, hG.out_length⟩
  · rw [hmap, List.nodup_flatMap]
    constructor
    · intro off hoff
      obtain ⟨idx, h1, rfl⟩ := hblk off hoff
      exact nodup_blockOffsets hv hfit h1
    · refine List.Pairwise.imp_of_mem ?_ hnd
      intro a b ha hb hab
      obtain ⟨idx, h1, rfl⟩ := hblk a ha
      obtain ⟨jdx, h2, rfl⟩ := hblk b hb
      have hne : idx ≠ jdx := fun e => hab (by rw [e])
      exact disjoint_blockOffsets hv hfit h1 h2 hne
  · intro x hx
    rw [hmap, List.mem_flatMap] at hx
    obtain ⟨off, hoff, hx1⟩ := hx
    obtain ⟨idx, h1, rfl⟩ := hblk off hoff
    rw [blockOffsets_eq hv hfit h1] at hx1
    simp only [List.mem_map, List.mem_range] at hx1
    obtain ⟨i, hi, rfl⟩ := hx1
    refine ⟨idx * p.BLOCK_CHUNKS + i, ?_, by ring⟩
    have h2 : (idx + 1) * p.BLOCK_CHUNKS ≤ p.BlockCount * p.BLOCK_CHUNKS :=
      Nat.mul_le_mul_right _ h1
    have h3 : (idx + 1) * p.BLOCK_CHUNKS = idx * p.BLOCK_CHUNKS + p.BLOCK_CHUNKS := by ring
    omega

/-- A run that ends with no live worker has moved the cursor past the last
block, provided no I/O failed and there was a worker at all. -/
theorem CntNF.finished {p : Params} {s : State} (hN : CntNF p s) (hdone : s.live = 0)
    (ht : 1 ≤ p.THREAD_COUNT) :
    s.BlockPtr = p.BlockCount + p.THREAD_COUNT := by
  have h1 := hN.below
  have h2 := hN.above
  by_cases hc : s.BlockPtr ≤ p.BlockCount
  · have := h1 hc
    omega
  · have := h2 (by omega)
    omega

/-! ## What `Entry` establishes -/

theorem checkSizes_ok {a io n : Nat} (h : checkSizes a io = .ok n) :
    0 < a ∧ a ≤ io ∧ io % a = 0 ∧ n = io / a := by
  unfold checkSizes umod at h
  split_ifs at h with h1 h2
  · simp only at h
    split_ifs at h with h3
    simp only [Except.ok.injEq] at h
    exact ⟨Nat.pos_of_ne_zero h2, Nat.not_lt.mp h1, not_not.mp h3, h.symm⟩

/-- For a positive alignment the validation accepts exactly the sizes with
`CHUNK_ALIGN ≤ IO_BLOCK_SZ` and `IO_BLOCK_SZ % CHUNK_ALIGN = 0`. -/
theorem checkSizes_accepts {a io : Nat} (ha : 0 < a) :
    checkSizes a io = .ok (io / a) ↔ a ≤ io ∧ io % a = 0 := by
  constructor
  · intro h
    obtain ⟨_, h2, h3, _⟩ := checkSizes_ok h
    exact ⟨h2, h3⟩
  · intro h
    unfold checkSizes umod
    simp [Nat.not_lt.mpr h.1, Nat.pos_iff_ne_zero.mp ha, h.2]

theorem checkSizes_error {a io : Nat} {o : Outcome} (h : checkSizes a io = .error o)
    (p : Params) (s : State) : o ≠ .started p s := by
  unfold checkSizes umod at h
  split_ifs at h with h1 h2
  · simp only [Except.error.injEq] at h; rw [← h]; simp
  · simp only [Except.error.injEq] at h; rw [← h]; simp
  · simp only at h
    split_ifs at h with h3
    simp only [Except.error.injEq] at h; rw [← h]; simp

theorem checkSizes_notThread {a io : Nat} {o : Outcome} (h : checkSizes a io = .error o)
    (i : Nat) : o ≠ .outOfBounds .hThread i := by
  unfold checkSizes umod at h
  split_ifs at h with h1 h2
  · simp only [Except.error.injEq] at h; rw [← h]; simp
  · simp only [Except.error.injEq] at h; rw [← h]; simp
  · simp only at h
    split_ifs at h with h3
    simp only [Except.error.injEq] at h; rw [← h]; simp

theorem submitInitial_bound (p : Params) (env : Env) :
    ∀ (n i : Nat) (s s1 : State), submitInitial p env n i s = .ok s1 →
      i ≤ MAX_QUEUE → i + n ≤ MAX_QUEUE := by
  intro n
  induction n with
  | zero => intro i s s1 _ hi; exact hi
  | succ n ih =>
    intro i s s1 h hi
    unfold submitInitial at h
    simp only at h
    split_ifs at h with h1 h2 h3
    have := ih (i + 1) _ s1 h (by omega)
    omega

theorem submitInitial_error (p : Params) (env : Env) :
    ∀ (n i : Nat) (s : State) (o : Outcome), submitInitial p env n i s = .error o →
      ∀ (q : Params) (t : State), o ≠ .started q t := by
  intro n
  induction n with
  | zero => intro i s o h; simp [submitInitial] at h
  | succ n ih =>
    intro i s o h q t
    unfold submitInitial at h
    simp only at h
    split_ifs at h with h1 h2 h3
    · simp only [Except.error.injEq] at h; rw [← h]; simp
    · simp only [Except.error.injEq] at h; rw [← h]; simp
    · simp only [Except.error.injEq] at h; rw [← h]; simp
    · exact ih _ _ _ h q t

theorem submitInitial_notThread (p : Params) (env : Env) :
    ∀ (n i : Nat) (s : State) (o : Outcome), submitInitial p env n i s = .error o →
      ∀ j, o ≠ .outOfBounds .hThread j := by
  intro n
  induction n with
  | zero => intro i s o h; simp [submitInitial] at h
  | succ n ih =>
    intro i s o h j
    unfold submitInitial at h
    simp only at h
    split_ifs at h with h1 h2 h3
    · simp only [Except.error.injEq] at h; rw [← h]; simp
    · simp only [Except.error.injEq] at h; rw [← h]; simp
    · simp only [Except.error.injEq] at h; rw [← h]; simp
    · exact ih _ _ _ h j

theorem createThreads_error (env : Env) :
    ∀ (n i : Nat) (o : Outcome), createThreads env n i = .error o →
      ∀ (q : Params) (t : State), o ≠ .started q t := by
  intro n
  induction n with
  | zero => intro i o h; simp [createThreads] at h
  | succ n ih =>
    intro i o h
    unfold createThreads at h
    split_ifs at h with h1 h2
    · simp only [Except.error.injEq] at h; rw [← h]; simp
    · simp only [Except.error.injEq] at h; rw [← h]; simp
    · exact ih _ _ h

theorem createThreads_notThread (env : Env) :
    ∀ (n i : Nat) (o : Outcome), createThreads env n i = .error o → i + n ≤ 64 →
      ∀ j, o ≠ .outOfBounds .hThread j := by
  intro n
  induction n with
  | zero => intro i o h; simp [createThreads] at h
  | succ n ih =>
    intro i o h hle j
    unfold createThreads at h
    split_ifs at h with h1 h2
    · omega
    · simp only [Except.error.injEq] at h; rw [← h]; simp
    · exact ih _ _ h (by omega) j

theorem Init_initial (p : Params) : Init p 0 State.initial :=
  { inv :=
      { slots_len := by simp [State.initial]
        port_nodup := by simp [State.initial]
        port_lt := by simp [State.initial]
        perm := by simp [State.initial, pending]
        reads_nodup := by simp [State.initial]
        reads_block := by simp [State.initial]
        reads_cursor := by simp [State.initial]
        reads_count := by simp [State.initial] }
    cursor := rfl
    le := Nat.zero_le _
    port := rfl
    live := rfl
    reads := rfl
    hashed := rfl
    out := rfl }

/-- Allocating the buffer of the next slot changes nothing the loop relies on. -/
theorem Init.alloc {p : Params} {i : Nat} {s : State} (hI : Init p i s) (x : IRP) :
    Init p i { s with IoRequest := s.IoRequest.set i x } :=
  { inv := hI.inv.set_slot (by rw [hI.port]; simp) x
    cursor := hI.cursor
    le := hI.le
    port := hI.port
    live := hI.live
    reads := hI.reads
    hashed := hI.hashed
    out := hI.out }

theorem submitInitial_Init {p : Params} (hv : p.Valid) (env : Env) :
    ∀ (n i : Nat) (s s1 : State), submitInitial p env n i s = .ok s1 →
      Init p i s → Init p (i + n) s1 := by
  intro n
  induction n with
  | zero =>
    intro i s s1 h hI
    simp only [submitInitial, Except.ok.injEq] at h
    exact h ▸ hI
  | succ n ih =>
    intro i s0 s1 h hI0
    unfold submitInitial at h
    simp only at h
    split_ifs at h with h1 h2 h3
    have hI := hI0.alloc { slotAt s0.IoRequest i with pData := List.replicate p.IO_BLOCK_SZ 0 }
    generalize ({ s0 with
      IoRequest := s0.IoRequest.set i
        { slotAt s0.IoRequest i with pData := List.replicate p.IO_BLOCK_SZ 0 } } : State)
      = s at h h3 hI
    have hi : i < MAX_QUEUE := Nat.not_le.mp h1
    have hw : s.BlockPtr + 1 < U64 := by
      rw [hI.cursor]; unfold MAX_QUEUE at hi; unfold U64; omega
    have hn : i ∉ s.iocp := by rw [hI.port]; simp
    have hS := SubmitIo_Inv hv (env.accepted i) hI.inv hi hn hw
    have hlt : s.BlockPtr < p.BlockCount := by
      by_contra hc
      rw [SubmitIo_drained p _ s i (Nat.not_lt.mp hc)] at h3
      simp at h3
    have hacc : env.accepted i = true := by
      by_contra hc
      rw [Bool.not_eq_true] at hc
      rw [hc, SubmitIo_rejected p s i hlt] at h3
      simp at h3
    rw [hacc] at h hS
    rw [SubmitIo_accepted p s i hlt] at h hS
    have hmod : (s.BlockPtr + 1) % U64 = i + 1 := by
      rw [Nat.mod_eq_of_lt hw, hI.cursor]
    have hq : QuadPart (diskAddr p s.BlockPtr) = i * p.IO_BLOCK_SZ := by
      rw [QuadPart_diskAddr p _ (hv.block_lt hlt), hI.cursor]
    have key := ih (i + 1) _ s1 h
      { inv := hS
        cursor := hmod
        le := by rw [← hI.cursor]; exact hlt
        port := by
          show s.iocp ++ [i] = List.range (i + 1)
          rw [hI.port, List.range_succ]
        live := hI.live
        reads := by
          show s.reads ++ [QuadPart (diskAddr p s.BlockPtr)] = _
          rw [hI.reads, hq, List.range_succ, List.map_append, List.map_singleton]
        hashed := hI.hashed
        out := hI.out }
    have e : i + (n + 1) = i + 1 + n := by omega
    rw [e]
    exact key

/-- The facts `Entry` has gathered when it creates the workers imply every
invariant of the starting state. -/
theorem start_Good {env : Env} {p : Params} {s0 : State}
    (hsz : checkSizes p.CHUNK_ALIGN p.IO_BLOCK_SZ = .ok p.BLOCK_CHUNKS)
    (hb : p.BlockCount = p.DISK_BYTES / p.IO_BLOCK_SZ)
    (hd : p.DISK_BYTES < U64)
    (ht : p.ChunkTotal = chunkTotal p.DISK_BYTES p.CHUNK_ALIGN)
    (hth : p.THREAD_COUNT ≤ popcnt64 env.CoreMask)
    (hs0 : submitInitial p env p.QUEUE_DEPTH 0 State.initial = .ok s0) :
    p.Valid ∧ Good p { s0 with live := p.THREAD_COUNT } ∧
      CntNF p { s0 with live := p.THREAD_COUNT } ∧ p.QUEUE_DEPTH ≤ p.BlockCount := by
  obtain ⟨h1, h2, h3, h4⟩ := checkSizes_ok hsz
  have hv : p.Valid :=
    { align_pos := h1
      align_le := h2
      divides := h3
      chunks := h4
      blocks := hb
      bytes_lt := hd
      total := ht
      threads_le := Nat.le_trans hth (popcnt64_le _)
      depth_le := by
        have := submitInitial_bound _ _ _ _ _ _ hs0 (Nat.zero_le _)
        simpa using this }
  have hI : Init p p.QUEUE_DEPTH s0 := by
    have := submitInitial_Init hv env p.QUEUE_DEPTH 0 State.initial s0 hs0 (Init_initial p)
    simpa using this
  have hlen : s0.iocp.length = p.QUEUE_DEPTH := by rw [hI.port, List.length_range]
  have hle := hI.le
  have hcur := hI.cursor
  refine ⟨hv, ?_, ?_, hI.le⟩
  · exact
      { inv := hI.inv.set_live _
        cnt :=
          { cursor := by simp only; omega
            live_le := by simp only; omega
            hashed := by simp only [hI.hashed, List.length_nil]; omega
            port := by simp only [hlen]; omega }
        outInv := by
          unfold OutInv
          simp only [hI.out, hI.hashed, List.flatMap_nil, List.map_nil] }
  · exact
      { below := fun _ => rfl
        above := by simp only; intro; omega
        port := by simp only [hlen]; omega
        reads := by
          simp only [hI.reads, hcur, Nat.min_eq_left hle] }

/-- Once `Entry` has started the pipeline, the parameters are consistent and
the state satisfies every invariant. -/
theorem Entry_started {env : Env} {p : Params} {s : State}
    (h : Entry env = .started p s) :
    p.Valid ∧ Good p s ∧ CntNF p s ∧ p.QUEUE_DEPTH ≤ p.BlockCount ∧
      (∃ align, env.cmd.align = some align ∧
        p.THREAD_COUNT = threadCount (parameters env.cmd align).THREAD_COUNT env.CoreMask) ∧
      s.live = p.THREAD_COUNT ∧
      (∃ DiskSize, env.DiskSize = some DiskSize ∧ p.TrueDiskSize = DiskSize % U64) := by
  unfold Entry at h
  split at h
  · exact absurd h (by simp)
  split at h
  · exact absurd h (by simp)
  split at h
  · exact absurd h (by simp)
  rename_i align halign
  simp only at h
  split at h
  · rename_i o ho
    exact absurd h (checkSizes_error ho p s)
  rename_i cpb hsz
  split at h
  · exact absurd h (by simp)
  split at h
  · exact absurd h (by simp)
  rename_i DiskSize hsize
  split at h
  · exact absurd h (by simp)
  split at h
  · exact absurd h (by simp)
  split at h
  · exact absurd h (by simp)
  split at h
  · rename_i o ho
    exact absurd h (submitInitial_error _ _ _ _ _ _ ho p s)
  rename_i s0 hs0
  split at h
  · rename_i o ho
    exact absurd h (createThreads_error _ _ _ _ ho p s)
  simp only [Outcome.started.injEq] at h
  obtain ⟨hp, hs⟩ := h
  subst hp
  subst hs
  obtain ⟨k1, k2, k3, k4⟩ := start_Good hsz rfl (ROUND_UP_lt _ _) rfl
    (threadCount_le _ _) hs0
  exact ⟨k1, k2, k3, k4, ⟨align, halign, rfl⟩, rfl, ⟨DiskSize, hsize, rfl⟩⟩

/-- The function `Entry` never indexes `hThread` past its 64 entries. -/
theorem Entry_notThread (env : Env) (i : Nat) : Entry env ≠ .outOfBounds .hThread i := by
  intro h
  unfold Entry at h
  split at h
  · exact absurd h (by simp)
  split at h
  · exact absurd h (by simp)
  split at h
  · exact absurd h (by simp)
  rename_i align _
  simp only at h
  split at h
  · rename_i o ho
    exact checkSizes_notThread ho i h
  split at h
  · exact absurd h (by simp)
  split at h
  · exact absurd h (by simp)
  split at h
  · exact absurd h (by simp)
  split at h
  · exact absurd h (by simp)
  split at h
  · exact absurd h (by simp)
  split at h
  · rename_i o ho
    exact submitInitial_notThread _ _ _ _ _ _ ho i h
  split at h
  · rename_i o ho
    have hle : 0 + threadCount (parameters env.cmd align).THREAD_COUNT env.CoreMask ≤ 64 := by
      have h1 := threadCount_le (parameters env.cmd align).THREAD_COUNT env.CoreMask
      have h2 := popcnt64_le env.CoreMask
      omega
    exact createThreads_notThread _ _ _ _ ho hle i h
  · exact absurd h (by simp)

/-- The exit code of the process is never anything but zero. -/
theorem main_zero (SHA1 : List Nat → List Nat) (device : Nat → Nat) (env : Env)
    (evs : List Event) (c : Int) (h : main SHA1 device env evs = some c) : c = 0 := by
  unfold main at h
  split at h
  · exact (Option.some.inj h).symm
  · exact absurd h (by simp)
  · exact absurd h (by simp)
  · split at h
    · exact absurd h (by simp)
    · split_ifs at h
      exact (Option.some.inj h).symm


/-- With no read in flight no worker step hashes anything. -/
theorem run_idle (p : Params) (SHA1 : List Nat → List Nat) (device : Nat → Nat) :
    ∀ (evs : List Event) (s s1 : State), s.iocp = [] →
      run p SHA1 device s evs = some s1 → s1.out = s.out ∧ s1.iocp = [] := by
  intro evs
  induction evs with
  | nil =>
    intro s s1 hp h
    simp only [run, Option.some.injEq] at h
    exact h ▸ ⟨rfl, hp⟩
  | cons e es ih =>
    intro s s1 hp h
    simp only [run] at h
    split at h
    · exact absurd h (by simp)
    · rename_i s2 hstep
      cases e with
      | waitFailed lost =>
        obtain ⟨_, port, hsub, _, rfl⟩ := WorkerEntry_waitFailed hstep
        rw [hp, List.sublist_nil] at hsub
        exact ih { s with iocp := port, live := s.live - 1 } s1 hsub h
      | completion slot a =>
        have hmem := (WorkerEntry_completion hstep).2.1
        rw [hp] at hmem
        exact absurd hmem (List.not_mem_nil _)

/-- The initial submissions look at the command line no more. -/
theorem submitInitial_cmd (p : Params) (e : Env) (cmd : CommandLine) :
    ∀ (n i : Nat) (s : State),
      submitInitial p { e with cmd := cmd } n i s = submitInitial p e n i s := by
  intro n
  induction n with
  | zero => intro i s; rfl
  | succ n ih =>
    intro i s
    unfold submitInitial
    simp only [ih]

theorem createThreads_cmd (e : Env) (cmd : CommandLine) :
    ∀ (n i : Nat), createThreads { e with cmd := cmd } n i = createThreads e n i := by
  intro n
  induction n with
  | zero => intro i; rfl
  | succ n ih =>
    intro i
    unfold createThreads
    simp only [ih]

/-- A request above the number of cores has the outcome of a request for
exactly that number. -/
theorem Entry_threads_clamp (e : Env) (v : Nat) (hv : e.cmd.threads = some v) (hlt : v < U32)
    (hgt : popcnt64 e.CoreMask < v) :
    Entry { e with cmd := { e.cmd with threads := some (popcnt64 e.CoreMask) } } = Entry e := by
  have hc : popcnt64 e.CoreMask < U32 := Nat.lt_trans hgt hlt
  have hmod : ∀ x, x < U32 → x % U64 % U32 = x := by
    intro x hx
    have h2 : x % U64 = x := Nat.mod_eq_of_lt (by unfold U32 at hx; unfold U64; omega)
    rw [h2]
    exact Nat.mod_eq_of_lt hx
  have h1 : ∀ x, x < U32 → x % U64 / U32 = 0 := by
    intro x hx
    have h2 : x % U64 = x := Nat.mod_eq_of_lt (by unfold U32 at hx; unfold U64; omega)
    rw [h2]
    exact Nat.div_eq_of_lt hx
  have ht : threadCount (popcnt64 e.CoreMask) e.CoreMask = threadCount v e.CoreMask := by
    unfold threadCount
    simp [hgt]
  unfold Entry parameters GetArg
  simp only [hv, hmod v hlt, hmod _ hc, h1 v hlt, h1 _ hc, ht, submitInitial_cmd,
    createThreads_cmd]

/-! ## Concrete evaluations -/

/-- `Entry` on `demoEnv` starts the pipeline with blocks 0 and 1 in flight. -/
theorem demo_started : Entry demoEnv = .started demoParams demoStart := by decide

/-- The run of `demoSchedule` hashes all four blocks and ends both workers. -/
theorem demo_run :
    run demoParams demoSHA1 demoDevice demoStart demoSchedule = some demoFinal := by decide!

/-- `Entry` on `soloEnv` starts the pipeline with a single worker. -/
theorem solo_started : Entry soloEnv = .started soloParams soloStart := by decide

/-- The run of `soloSchedule` ends the only worker with block 3 in flight. -/
theorem solo_run :
    run soloParams demoSHA1 demoDevice soloStart soloSchedule = some soloFinal := by decide!

/-- `Entry` on `tailEnv` starts as on `demoEnv`, with three blocks to read. -/
theorem tail_started : Entry tailEnv = .started tailParams demoStart := by decide

/-- The run of `tailPrefix` leaves the read of block 2 in flight in slot 0. -/
theorem tail_prefix_run :
    run tailParams demoSHA1 demoDevice demoStart tailPrefix = some tailMid := by decide!

/-- The completion of block 2. -/
theorem tail_last_step :
    WorkerEntry tailParams demoSHA1 demoDevice tailMid (.completion 0 true)
      = some tailFinal := by decide!

/-- The run of `tailSchedule` hashes the three blocks and ends both workers. -/
theorem tail_run :
    run tailParams demoSHA1 demoDevice demoStart tailSchedule = some tailFinal := by decide!

/-! ## The claims -/

/-- C1 (the code departs from it): whenever `Entry` starts the pipeline with
fewer workers than reads in flight (`THREAD_COUNT < QUEUE_DEPTH`), every run
in which all workers have left their loop ends with some digest slot `k` of
the output map, `k < DISK_BYTES / CHUNK_ALIGN`, never written: each worker
leaves at its first exhausted cursor and the reads still in flight are never
hashed.  The cursor is assumed not to wrap. -/
theorem unconsumed_reads_leave_slots_unwritten (SHA1 : List Nat → List Nat)
    (device : Nat → Nat) (env : Env) (p : Params) (s0 s : State) (evs : List Event)
    (hE : Entry env = .started p s0)
    (hcur : p.BlockCount + p.THREAD_COUNT < U64)
    (hlt : p.THREAD_COUNT < p.QUEUE_DEPTH)
    (hrun : run p SHA1 device s0 evs = some s)
    (hdone : s.live = 0) :
    ∃ k, k < p.DISK_BYTES / p.CHUNK_ALIGN ∧ k * 20 ∉ s.out.map Prod.fst := by
  obtain ⟨hv, hG0, _, _, _⟩ := Entry_started hE
  have hG := run_Good hv hcur SHA1 device evs s0 s hG0 hrun
  have h1 := hG.cnt.port
  have h2 := hG.inv.perm.length_le
  have h3 := hG.inv.reads_count
  have h4 := hG.out_length
  rw [List.length_append] at h2
  unfold pending at h2
  rw [List.length_map] at h2
  have h5 : s.hashed.length < p.BlockCount := by omega
  have h6 : s.hashed.length * p.BLOCK_CHUNKS < p.BlockCount * p.BLOCK_CHUNKS :=
    Nat.mul_lt_mul_of_pos_right h5 hv.chunks_pos
  by_contra hall
  have hall1 : ∀ k, k < p.DISK_BYTES / p.CHUNK_ALIGN → k * 20 ∈ s.out.map Prod.fst := by
    intro k hk
    by_contra hk1
    exact hall ⟨k, hk, hk1⟩
  have hsub : (List.range (p.BlockCount * p.BLOCK_CHUNKS)).map (fun k => k * 20)
      ⊆ s.out.map Prod.fst := by
    intro x hx
    simp only [List.mem_map, List.mem_range] at hx
    obtain ⟨k, hk, rfl⟩ := hx
    exact hall1 k (Nat.lt_of_lt_of_le hk hv.chunks_le)
  have hnd : ((List.range (p.BlockCount * p.BLOCK_CHUNKS)).map (fun k => k * 20)).Nodup := by
    apply List.Nodup.map _ (List.nodup_range _)
    intro a b hab
    simp only at hab
    omega
  have hlen := (List.subperm_of_subset hnd hsub).length_le
  rw [List.length_map, List.length_range, List.length_map] at hlen
  omega

/-- The single-worker run: two reads in flight, one worker.  The worker
hashes blocks 0, 1 and 2 and leaves; the read of block 3 stays in the port and
the slots at bytes 120 and 140 are never written. -/
theorem unconsumed_reads_leave_slots_unwritten_solo :
    Entry soloEnv = .started soloParams soloStart ∧
      soloParams.BlockCount + soloParams.THREAD_COUNT < U64 ∧
      soloParams.THREAD_COUNT < soloParams.QUEUE_DEPTH ∧
      run soloParams demoSHA1 demoDevice soloStart soloSchedule = some soloFinal ∧
      soloFinal.live = 0 ∧
      soloFinal.out.map Prod.fst = [0, 20, 40, 60, 80, 100] ∧
      soloParams.DISK_BYTES / soloParams.CHUNK_ALIGN = 8 ∧
      ∃ k, k < soloParams.DISK_BYTES / soloParams.CHUNK_ALIGN ∧
        k * 20 ∉ soloFinal.out.map Prod.fst :=
  ⟨solo_started, by decide, by decide, solo_run, rfl, rfl, rfl,
    unconsumed_reads_leave_slots_unwritten demoSHA1 demoDevice soloEnv soloParams soloStart
      soloFinal soloSchedule solo_started (by decide) (by decide) solo_run rfl⟩

/-- C2, refuted as stated: on a device of 2560 bytes with `/align:512
/iosize:1024` the range is rounded up to three blocks, six chunks, and the
read of block 2 brings only the 512 bytes the device has there.  The second
digest of that block, written at byte 100 for chunk 5, is that of the bytes
the slot's earlier read of block 0 left in the buffer, sector 1 of the
device; it is not the digest of device bytes 2560 to 3071, which the device
does not have. -/
theorem stale_bytes_hashed_past_device :
    Entry tailEnv = .started tailParams demoStart ∧
      run tailParams demoSHA1 demoDevice demoStart tailSchedule = some tailFinal ∧
      tailEnv.DiskSize = some 2560 ∧ tailParams.TrueDiskSize = 2560 ∧
      2 < tailParams.BlockCount ∧ 1 < tailParams.BLOCK_CHUNKS ∧
      tailFinal.out[2 * tailParams.BLOCK_CHUNKS + 1]?
        = some (100, demoSHA1 (deviceBytes demoDevice 512 512)) ∧
      tailFinal.out[2 * tailParams.BLOCK_CHUNKS + 1]?
        ≠ some ((2 * tailParams.BLOCK_CHUNKS + 1) * 20,
          demoSHA1 (deviceBytes demoDevice
            ((2 * tailParams.BLOCK_CHUNKS + 1) * tailParams.CHUNK_ALIGN)
            tailParams.CHUNK_ALIGN)) :=
  ⟨tail_started, tail_run, rfl, rfl, by decide, by decide, by decide, by decide⟩

/-- C2, amended: let `Entry` have started the pipeline, let the output size
fit in 64 bits, and let a worker handle the completion of a slot in any state
a run has reached.  Then the slot holds the offset `idx * IO_BLOCK_SZ` of a
read that `SubmitIo` issued, for a block `idx < BlockCount`, and the worker
appends `BLOCK_CHUNKS` writes to the output map: the `i`-th goes to byte
`k * 20`, `k = idx * BLOCK_CHUNKS + i`, ends inside the map
(`k * 20 + 20 ≤ ChunkTotal = DISK_BYTES / CHUNK_ALIGN * 20`) and holds the
digest of the `i`-th run of `CHUNK_ALIGN` bytes of the slot's buffer after
the read.  If chunk `k` lies inside the device,
`(k + 1) * CHUNK_ALIGN ≤ TrueDiskSize`, these are the device bytes
`[k * CHUNK_ALIGN, (k + 1) * CHUNK_ALIGN)`.  A call of `SubmitIo` that finds
the cursor at `idx < BlockCount` stores `idx * IO_BLOCK_SZ` in the two 32-bit
offset words of the slot and issues the read at that offset. -/
theorem digest_position (SHA1 : List Nat → List Nat) (device : Nat → Nat)
    (env : Env) (p : Params) (s0 s s1 : State) (evs : List Event) (slot : Nat) (acc : Bool)
    (hE : Entry env = .started p s0)
    (hfit : p.DISK_BYTES / p.CHUNK_ALIGN * 20 < U64)
    (hrun : run p SHA1 device s0 evs = some s)
    (hstep : WorkerEntry p SHA1 device s (.completion slot acc) = some s1) :
    (∀ (t : State) (j idx : Nat), t.BlockPtr = idx → idx < p.BlockCount →
        j < t.IoRequest.length →
        (SubmitIo p true t j).1 = true ∧
          ((SubmitIo p true t j).2.IoRequest[j]?).map IRP.ov = some (diskAddr p idx) ∧
          (SubmitIo p true t j).2.reads = t.reads ++ [idx * p.IO_BLOCK_SZ] ∧
          (diskAddr p idx).Offset < U32 ∧ (diskAddr p idx).OffsetHigh < U32 ∧
          QuadPart (diskAddr p idx) = idx * p.IO_BLOCK_SZ) ∧
      p.ChunkTotal = p.DISK_BYTES / p.CHUNK_ALIGN * 20 ∧
      (∃ DiskSize, env.DiskSize = some DiskSize ∧ p.TrueDiskSize = DiskSize % U64) ∧
      ∃ idx queued w,
        idx < p.BlockCount ∧ idx * p.IO_BLOCK_SZ ∈ s.reads ∧
        s.IoRequest[slot]? = some queued ∧ QuadPart queued.ov = idx * p.IO_BLOCK_SZ ∧
        s1.out = s.out ++ w ∧ w.length = p.BLOCK_CHUNKS ∧
        ∀ i, i < p.BLOCK_CHUNKS →
          w[i]? = some ((idx * p.BLOCK_CHUNKS + i) * 20,
            SHA1 (((completeRead p device queued).pData.drop (i * p.CHUNK_ALIGN)).take
              p.CHUNK_ALIGN)) ∧
          (idx * p.BLOCK_CHUNKS + i) * 20 + 20 ≤ p.ChunkTotal ∧
          ((idx * p.BLOCK_CHUNKS + i + 1) * p.CHUNK_ALIGN ≤ p.TrueDiskSize →
            w[i]? = some ((idx * p.BLOCK_CHUNKS + i) * 20,
              SHA1 (deviceBytes device ((idx * p.BLOCK_CHUNKS + i) * p.CHUNK_ALIGN)
                p.CHUNK_ALIGN))) := by
  obtain ⟨hv, hG0, _, _, _, _, hsize⟩ := Entry_started hE
  have hcur := hv.cursor_fits hfit
  have hG := run_Good hv hcur SHA1 device evs s0 s hG0 hrun
  have htot : p.ChunkTotal = p.DISK_BYTES / p.CHUNK_ALIGN * 20 := by
    rw [hv.total]
    unfold chunkTotal
    exact Nat.mod_eq_of_lt hfit
  refine ⟨?_, htot, hsize, ?_⟩
  · intro t j idx ht hidx hj
    subst ht
    have hq := QuadPart_diskAddr p _ (hv.block_lt hidx)
    have hlo : (diskAddr p t.BlockPtr).Offset < U32 := by
      unfold diskAddr
      exact Nat.mod_lt _ (by unfold U32; omega)
    have hhi : (diskAddr p t.BlockPtr).OffsetHigh < U32 := by
      unfold diskAddr
      simp only
      have h1 : t.BlockPtr * p.IO_BLOCK_SZ % U64 < U64 := Nat.mod_lt _ (by unfold U64; omega)
      generalize t.BlockPtr * p.IO_BLOCK_SZ % U64 = x at h1 ⊢
      unfold U64 at h1
      unfold U32
      omega
    rw [SubmitIo_accepted p t j hidx]
    refine ⟨rfl, ?_, ?_, hlo, hhi, hq⟩
    · simp only
      rw [List.getElem?_set_self hj]
      rfl
    · simp only [hq]
  · obtain ⟨_, hmem, queued, hget, hr⟩ := WorkerEntry_completion hstep
    have hoff : slotOffset s.IoRequest slot = QuadPart queued.ov := by
      unfold slotOffset
      rw [hget]
    have hin : QuadPart queued.ov ∈ s.reads := by
      apply hG.inv.perm.subset
      apply List.mem_append_left
      unfold pending
      rw [← hoff]
      exact List.mem_map_of_mem _ hmem
    obtain ⟨idx, _, hidx, hq⟩ := hG.inv.reads_block _ hin
    have hout : s1.out = s.out ++ hashBlock p SHA1 (completeRead p device queued) := by
      rcases hr with ⟨_, _, _, rfl⟩ | ⟨_, _, _, _, rfl⟩ | ⟨_, _, _, _, rfl⟩ <;> rfl
    refine ⟨idx, queued, hashBlock p SHA1 (completeRead p device queued), hidx, hq ▸ hin,
      hget, hq, hout, length_hashBlock _ _ _, ?_⟩
    intro i hi
    have hw := getElem?_hashBlock hv hfit SHA1 (completeRead p device queued)
      (show QuadPart (completeRead p device queued).ov = idx * p.IO_BLOCK_SZ from hq) hidx hi
    have hbound : (idx * p.BLOCK_CHUNKS + i) * 20 + 20 ≤ p.ChunkTotal := by
      rw [htot]
      have h2 : (idx + 1) * p.BLOCK_CHUNKS ≤ p.BlockCount * p.BLOCK_CHUNKS :=
        Nat.mul_le_mul_right _ hidx
      have h3 : (idx + 1) * p.BLOCK_CHUNKS = idx * p.BLOCK_CHUNKS + p.BLOCK_CHUNKS := by ring
      have h4 := hv.chunks_le
      omega
    refine ⟨hw, hbound, ?_⟩
    intro hdev
    have e1 : idx * p.IO_BLOCK_SZ = idx * p.BLOCK_CHUNKS * p.CHUNK_ALIGN := by
      rw [← hv.size_eq, Nat.mul_assoc]
    have e2 : (idx * p.BLOCK_CHUNKS + i + 1) * p.CHUNK_ALIGN
        = idx * p.BLOCK_CHUNKS * p.CHUNK_ALIGN + i * p.CHUNK_ALIGN + p.CHUNK_ALIGN := by ring
    have e3 : (idx * p.BLOCK_CHUNKS + i) * p.CHUNK_ALIGN
        = idx * p.BLOCK_CHUNKS * p.CHUNK_ALIGN + i * p.CHUNK_ALIGN := by ring
    have hio : i * p.CHUNK_ALIGN + p.CHUNK_ALIGN ≤ p.IO_BLOCK_SZ := by
      have h5 : (i + 1) * p.CHUNK_ALIGN ≤ p.BLOCK_CHUNKS * p.CHUNK_ALIGN :=
        Nat.mul_le_mul_right _ hi
      have h6 : (i + 1) * p.CHUNK_ALIGN = i * p.CHUNK_ALIGN + p.CHUNK_ALIGN := by ring
      have h7 := hv.size_eq
      omega
    have hchunk := completeRead_chunk p device queued i p.CHUNK_ALIGN hio
      (by rw [hq, e1]; omega)
    rw [hw, hchunk, hq, e1, e3]

/-- The last completion of the run on the device of 2560 bytes: slot 0 holds
the read of block 2, chunk 4 lies inside the device and chunk 5 past it. -/
theorem digest_position_tail :
    Entry tailEnv = .started tailParams demoStart ∧
      tailParams.DISK_BYTES / tailParams.CHUNK_ALIGN * 20 < U64 ∧
      run tailParams demoSHA1 demoDevice demoStart tailPrefix = some tailMid ∧
      WorkerEntry tailParams demoSHA1 demoDevice tailMid (.completion 0 true)
        = some tailFinal ∧
      (∀ (t : State) (j idx : Nat), t.BlockPtr = idx → idx < tailParams.BlockCount →
        j < t.IoRequest.length →
        (SubmitIo tailParams true t j).1 = true ∧
          ((SubmitIo tailParams true t j).2.IoRequest[j]?).map IRP.ov
            = some (diskAddr tailParams idx) ∧
          (SubmitIo tailParams true t j).2.reads
            = t.reads ++ [idx * tailParams.IO_BLOCK_SZ] ∧
          (diskAddr tailParams idx).Offset < U32 ∧
          (diskAddr tailParams idx).OffsetHigh < U32 ∧
          QuadPart (diskAddr tailParams idx) = idx * tailParams.IO_BLOCK_SZ) ∧
      tailParams.ChunkTotal = tailParams.DISK_BYTES / tailParams.CHUNK_ALIGN * 20 ∧
      (∃ DiskSize, tailEnv.DiskSize = some DiskSize ∧
        tailParams.TrueDiskSize = DiskSize % U64) ∧
      ∃ idx queued w,
        idx < tailParams.BlockCount ∧ idx * tailParams.IO_BLOCK_SZ ∈ tailMid.reads ∧
        tailMid.IoRequest[0]? = some queued ∧
        QuadPart queued.ov = idx * tailParams.IO_BLOCK_SZ ∧
        tailFinal.out = tailMid.out ++ w ∧ w.length = tailParams.BLOCK_CHUNKS ∧
        ∀ i, i < tailParams.BLOCK_CHUNKS →
          w[i]? = some ((idx * tailParams.BLOCK_CHUNKS + i) * 20,
            demoSHA1 (((completeRead tailParams demoDevice queued).pData.drop
              (i * tailParams.CHUNK_ALIGN)).take tailParams.CHUNK_ALIGN)) ∧
          (idx * tailParams.BLOCK_CHUNKS + i) * 20 + 20 ≤ tailParams.ChunkTotal ∧
          ((idx * tailParams.BLOCK_CHUNKS + i + 1) * tailParams.CHUNK_ALIGN
              ≤ tailParams.TrueDiskSize →
            w[i]? = some ((idx * tailParams.BLOCK_CHUNKS + i) * 20,
              demoSHA1 (deviceBytes demoDevice
                ((idx * tailParams.BLOCK_CHUNKS + i) * tailParams.CHUNK_ALIGN)
                tailParams.CHUNK_ALIGN))) :=
  ⟨tail_started, by decide, tail_prefix_run, tail_last_step,
    digest_position demoSHA1 demoDevice tailEnv tailParams demoStart tailMid tailFinal
      tailPrefix 0 true tail_started (by decide) tail_prefix_run tail_last_step⟩

/-- C3 (the code departs from it): on a 1 MiB device with `/align:1024`,
the I/O size at its default of 65536 and the queue depth at its default of
256, so 16 blocks, the initial submission loop meets the exhausted cursor at
its 17th call of `SubmitIo`, and `Entry` prints "Failed to begin I/O" and
returns -1 before any worker is created: no digest is written.  In general
`Entry` starts the pipeline only when `QUEUE_DEPTH ≤ BlockCount`.  With
`/iosize:65536` spelled out on the command line the store of `GetArg` clears
`QUEUE_DEPTH`: `Entry` submits nothing and creates eight workers, which find
no completion to wait for, and no run writes a digest. -/
theorem small_device_fails_to_begin :
    Entry smallEnv = .ret .beginFailed (-1) ∧
      (∀ (env : Env) (p : Params) (s : State),
        Entry env = .started p s → p.QUEUE_DEPTH ≤ p.BlockCount) ∧
      Entry spelledEnv = .started spelledParams spelledStart ∧
      (∀ (SHA1 : List Nat → List Nat) (device : Nat → Nat) (evs : List Event) (s : State),
        run spelledParams SHA1 device spelledStart evs = some s → s.out = [] ∧ s.iocp = []) := by
  refine ⟨by decide, ?_, by decide, ?_⟩
  · intro env p s h
    obtain ⟨_, _, _, hle, _⟩ := Entry_started h
    exact hle
  · intro SHA1 device evs s h
    exact run_idle spelledParams SHA1 device evs spelledStart s rfl h

/-- C4 (the code departs from it): with `/align` missing, `Entry` takes its
fatal path and returns -1, yet the process exit code, the value of `main`,
is 0: `main` discards what `Entry` returns.  So it is on every fatal path:
whatever diagnostic and code `Entry` returns with, `main` returns 0. -/
theorem exit_code_zero_on_fatal (SHA1 : List Nat → List Nat) (device : Nat → Nat)
    (evs : List Event) :
    Entry noAlignEnv = .ret .missingAlign (-1) ∧
      main SHA1 device noAlignEnv evs = some 0 ∧
      ∀ (env : Env) (d : Diag) (c : Int),
        Entry env = .ret d c → main SHA1 device env evs = some 0 := by
  have h : Entry noAlignEnv = .ret .missingAlign (-1) := by decide
  have hall : ∀ (env : Env) (d : Diag) (c : Int),
      Entry env = .ret d c → main SHA1 device env evs = some 0 := by
    intro env d c he
    unfold main
    rw [he]
  exact ⟨h, hall noAlignEnv _ _ h, hall⟩

/-- C5, refuted as stated: with `/iodepth:2000 /threads:100` nothing is
rejected as a configuration error; `Entry` acquires its resources, enters the
initial submission loop with `QUEUE_DEPTH = 2000` and indexes `IoRequest` at
1024, one past its last entry.  With `/threads:100` alone on two cores,
`Entry` starts the pipeline exactly as with `/threads:2`. -/
theorem deep_queue_overruns_slots :
    Entry deepEnv = .outOfBounds .IoRequest 1024 ∧
      Entry manyThreadsEnv = .started demoParams demoStart := by
  constructor <;> decide

/-- C5, amended: let `Entry` start the pipeline, let `c ≤ 64` be the number
of cores, the population count of the 64-bit core mask, and `r` the worker
count requested, the value `THREAD_COUNT` holds once the arguments are
parsed: the low 32 bits of the number given with `/threads`, and 0 with no
`/threads` flag and `/align` below `2^32`.  Then `THREAD_COUNT = c` if `r = 0`
or `r > c`, and `THREAD_COUNT = r` if `1 ≤ r ≤ c`.  So `THREAD_COUNT ≤ c ≤ 64`,
that many workers start, and `Entry` never indexes `hThread` past its 64
entries.  A request above the number of cores is not fatal: on every command
line `/threads:v` with `c < v < 2^32` gives the outcome of `/threads:c`. -/
theorem thread_count_clamped (env : Env) (p : Params) (s : State)
    (h : Entry env = .started p s) :
    (∃ align r, env.cmd.align = some align ∧
      r = (parameters env.cmd align).THREAD_COUNT ∧
      (∀ v, env.cmd.threads = some v → r = v % U64 % U32) ∧
      (env.cmd.threads = none → align < U32 → r = 0) ∧
      (r = 0 → p.THREAD_COUNT = popcnt64 env.CoreMask) ∧
      (popcnt64 env.CoreMask < r → p.THREAD_COUNT = popcnt64 env.CoreMask) ∧
      (1 ≤ r → r ≤ popcnt64 env.CoreMask → p.THREAD_COUNT = r)) ∧
      p.THREAD_COUNT ≤ popcnt64 env.CoreMask ∧ popcnt64 env.CoreMask ≤ MAX_THREADS ∧
      p.THREAD_COUNT ≤ MAX_THREADS ∧
      s.live = p.THREAD_COUNT ∧
      (∀ e : Env, ∀ i, Entry e ≠ .outOfBounds .hThread i) ∧
      (∀ (e : Env) (v : Nat), e.cmd.threads = some v → v < U32 → popcnt64 e.CoreMask < v →
        Entry { e with cmd := { e.cmd with threads := some (popcnt64 e.CoreMask) } }
          = Entry e) := by
  obtain ⟨hv, _, _, _, ⟨align, halign, ht⟩, hlive, _⟩ := Entry_started h
  have h1 : p.THREAD_COUNT ≤ popcnt64 env.CoreMask := by
    rw [ht]; exact threadCount_le _ _
  refine ⟨⟨align, _, halign, rfl, ?_, ?_, ?_, ?_, ?_⟩, h1, popcnt64_le _, hv.threads_le,
    hlive, Entry_notThread, Entry_threads_clamp⟩
  · intro v hvv
    unfold parameters GetArg
    simp only [hvv]
  · intro hnone hlt
    unfold parameters GetArg
    simp only [hnone]
    have h2 : align % U64 = align := Nat.mod_eq_of_lt (by unfold U32 at hlt; unfold U64; omega)
    rw [h2]
    exact Nat.div_eq_of_lt hlt
  · intro h0
    rw [ht, h0]
    unfold threadCount
    simp
  · intro hgt
    rw [ht]
    unfold threadCount
    simp only [gt_iff_lt, hgt, ↓reduceIte, ite_self]
  · intro hpos hle
    rw [ht]
    unfold threadCount
    simp only [gt_iff_lt, Nat.not_lt.mpr hle, ↓reduceIte]
    rw [if_neg (by omega)]

/-- A request for 100 workers on two cores starts two workers. -/
theorem thread_count_clamped_demo :
    Entry manyThreadsEnv = .started demoParams demoStart ∧
      (∃ align r, manyThreadsEnv.cmd.align = some align ∧
        r = (parameters manyThreadsEnv.cmd align).THREAD_COUNT ∧
        (∀ v, manyThreadsEnv.cmd.threads = some v → r = v % U64 % U32) ∧
        (manyThreadsEnv.cmd.threads = none → align < U32 → r = 0) ∧
        (r = 0 → demoParams.THREAD_COUNT = popcnt64 manyThreadsEnv.CoreMask) ∧
        (popcnt64 manyThreadsEnv.CoreMask < r →
          demoParams.THREAD_COUNT = popcnt64 manyThreadsEnv.CoreMask) ∧
        (1 ≤ r → r ≤ popcnt64 manyThreadsEnv.CoreMask → demoParams.THREAD_COUNT = r)) ∧
      demoParams.THREAD_COUNT ≤ popcnt64 manyThreadsEnv.CoreMask ∧
      popcnt64 manyThreadsEnv.CoreMask ≤ MAX_THREADS ∧
      demoParams.THREAD_COUNT ≤ MAX_THREADS ∧
      demoStart.live = demoParams.THREAD_COUNT ∧
      (∀ e : Env, ∀ i, Entry e ≠ .outOfBounds .hThread i) ∧
      (∀ (e : Env) (v : Nat), e.cmd.threads = some v → v < U32 → popcnt64 e.CoreMask < v →
        Entry { e with cmd := { e.cmd with threads := some (popcnt64 e.CoreMask) } }
          = Entry e) :=
  ⟨by decide, thread_count_clamped manyThreadsEnv demoParams demoStart (by decide)⟩

/-- C6 (the code departs from it): with `/align:0` the size validation
evaluates `IO_BLOCK_SZ % 0`; `Entry` faults instead of reporting a
configuration error, and so for every I/O size.  The two diagnostics the
claim names are given for its two other inputs. -/
theorem zero_alignment_divides_by_zero :
    Entry zeroAlignEnv = .divideByZero ∧
      (∀ io, checkSizes 0 io = .error .divideByZero) ∧
      checkSizes 0x20000 0x10000 = .error (.ret .alignmentTooLarge (-1)) ∧
      checkSizes 0x3000 0x10000 = .error (.ret .sizeNotDivisible (-1)) := by
  refine ⟨by decide, ?_, rfl, rfl⟩
  intro io
  unfold checkSizes umod
  simp

/-- C7, refuted as stated: on a device of 0x18000 bytes with
`/iosize:0x10000 /align:0x1000 /bytes:0x100000`, sizes the validation
accepts, `Entry` settles on 0x20000 bytes, more than the device holds, and
sizes the output to 640 bytes, not to the 480 bytes of the device. -/
theorem rounded_range_exceeds_device :
    checkSizes 0x1000 0x10000 = .ok 16 ∧
      ¬ (chunkTotal (diskBytes 0x100000 0x18000 0x10000) 0x1000 = 0x18000 / 0x1000 * 20 ∧
        diskBytes 0x100000 0x18000 0x10000 ≤ 0x18000) :=
  ⟨rfl, by decide⟩

/-- C7, amended: for a device of `D < 2^63` bytes, sizes accepted by the
validation and a requested `/bytes` value `R > D`, `Entry` clamps the range to
`D` and then rounds it up to a multiple of `IO_BLOCK_SZ`:
`DISK_BYTES = (D + IO_BLOCK_SZ - 1) / IO_BLOCK_SZ * IO_BLOCK_SZ`, so
`D ≤ DISK_BYTES < D + IO_BLOCK_SZ`, with `DISK_BYTES = D` exactly when
`IO_BLOCK_SZ` divides `D`; the output is sized from the rounded range,
`DISK_BYTES / CHUNK_ALIGN * 20` (in 64 bits). -/
theorem range_rounded_up (R D io align n : Nat)
    (hval : checkSizes align io = .ok n)
    (hR : D < R) (hD : D < 2 ^ 63) (hio : io < U32) :
    diskBytes R D io = (D + io - 1) / io * io ∧
      D ≤ diskBytes R D io ∧ diskBytes R D io < D + io ∧
      diskBytes R D io % io = 0 ∧
      (diskBytes R D io = D ↔ D % io = 0) ∧
      chunkTotal (diskBytes R D io) align
        = ((D + io - 1) / io * io / align * 20) % U64 := by
  obtain ⟨h1, h2, _, _⟩ := checkSizes_ok hval
  have hpos : 0 < io := Nat.lt_of_lt_of_le h1 h2
  have he := diskBytes_clamped R D io hR hD hio hpos
  have h3 := Nat.div_mul_le_self (D + io - 1) io
  have h4 := Nat.lt_div_mul_add (a := D + io - 1) hpos
  have h5 : (D + io - 1) / io * io % io = 0 := Nat.mul_mod_left _ _
  rw [he]
  refine ⟨rfl, by omega, by omega, h5, ?_, rfl⟩
  constructor
  · intro e
    rw [← e]
    exact h5
  · intro hmod
    have h6 : ((D + io - 1) / io * io - D) % io = 0 := by
      apply Nat.mod_eq_zero_of_dvd
      exact Nat.dvd_sub (by omega) (Nat.dvd_of_mod_eq_zero h5) (Nat.dvd_of_mod_eq_zero hmod)
    have h7 : (D + io - 1) / io * io - D < io := by omega
    have h8 : (D + io - 1) / io * io - D = 0 := by
      rw [Nat.mod_eq_of_lt h7] at h6
      exact h6
    omega

/-- A device of one and a half blocks: the range settles on two blocks. -/
theorem range_rounded_up_demo :
    checkSizes 0x1000 0x10000 = .ok 16 ∧ 0x18000 < 0x100000 ∧ 0x18000 < 2 ^ 63 ∧
      0x10000 < U32 ∧
      diskBytes 0x100000 0x18000 0x10000 = (0x18000 + 0x10000 - 1) / 0x10000 * 0x10000 ∧
      0x18000 ≤ diskBytes 0x100000 0x18000 0x10000 ∧
      diskBytes 0x100000 0x18000 0x10000 < 0x18000 + 0x10000 ∧
      diskBytes 0x100000 0x18000 0x10000 % 0x10000 = 0 ∧
      (diskBytes 0x100000 0x18000 0x10000 = 0x18000 ↔ 0x18000 % 0x10000 = 0) ∧
      chunkTotal (diskBytes 0x100000 0x18000 0x10000) 0x1000
        = ((0x18000 + 0x10000 - 1) / 0x10000 * 0x10000 / 0x1000 * 20) % U64 :=
  ⟨rfl, by decide, by decide, by decide,
    range_rounded_up 0x100000 0x18000 0x10000 0x1000 16 rfl (by decide) (by decide)
      (by decide)⟩

/-- C8: in every state of every run that `Entry` starts (any order of
completions, with or without I/O failures), no digest slot of the output map
has been written twice: the offsets written are pairwise distinct, each is
`k * 20` for a chunk index `k` of the byte range; no block was read twice or
hashed twice; the cursor has advanced by exactly one per call of `SubmitIo`
without wrapping, so no two calls claimed the same block; and the slots
written for two different blocks are disjoint.
The output size is assumed to fit the 64 bits in which `Entry` computes it. -/
theorem output_slots_written_once (SHA1 : List Nat → List Nat) (device : Nat → Nat)
    (env : Env) (p : Params) (s0 s : State) (evs : List Event)
    (hE : Entry env = .started p s0)
    (hfit : p.DISK_BYTES / p.CHUNK_ALIGN * 20 < U64)
    (hrun : run p SHA1 device s0 evs = some s) :
    (s.out.map Prod.fst).Nodup ∧
      (∀ x ∈ s.out.map Prod.fst, ∃ k, k < p.DISK_BYTES / p.CHUNK_ALIGN ∧ x = k * 20) ∧
      s.reads.Nodup ∧ s.hashed.Nodup ∧
      s.BlockPtr = p.QUEUE_DEPTH + s.hashed.length ∧ s.BlockPtr < U64 ∧
      (∀ (idx jdx : Nat) (x y : List Nat),
        idx < p.BlockCount → jdx < p.BlockCount → idx ≠ jdx →
        List.Disjoint ((hashBlock p SHA1 { ov := diskAddr p idx, pData := x }).map Prod.fst)
          ((hashBlock p SHA1 { ov := diskAddr p jdx, pData := y }).map Prod.fst)) := by
  obtain ⟨hv, hG0, _, _, _⟩ := Entry_started hE
  have hcur := hv.cursor_fits hfit
  have hG := run_Good hv hcur SHA1 device evs s0 s hG0 hrun
  obtain ⟨h1, h2, _⟩ := hG.out_slots hv hfit
  have h3 := hG.cnt.hashed
  have h4 := hG.cnt.cursor
  refine ⟨h1, ?_, hG.inv.reads_nodup, hG.inv.hashed_block.1, by omega, by omega, ?_⟩
  · intro x hx
    obtain ⟨k, hk, rfl⟩ := h2 x hx
    exact ⟨k, Nat.lt_of_lt_of_le hk hv.chunks_le, rfl⟩
  · intro idx jdx x y hi hj hne
    rw [map_fst_hashBlock, map_fst_hashBlock]
    simp only [QuadPart_diskAddr p idx (hv.block_lt hi),
      QuadPart_diskAddr p jdx (hv.block_lt hj)]
    exact disjoint_blockOffsets hv hfit hi hj hne

/-- The two-worker run writes the eight slots at bytes 0, 20, ..., 140, each
once. -/
theorem output_slots_written_once_demo :
    Entry demoEnv = .started demoParams demoStart ∧
      demoParams.DISK_BYTES / demoParams.CHUNK_ALIGN * 20 < U64 ∧
      run demoParams demoSHA1 demoDevice demoStart demoSchedule = some demoFinal ∧
      demoFinal.out.map Prod.fst = [0, 20, 40, 60, 80, 100, 120, 140] ∧
      (demoFinal.out.map Prod.fst).Nodup ∧
      (∀ x ∈ demoFinal.out.map Prod.fst,
        ∃ k, k < demoParams.DISK_BYTES / demoParams.CHUNK_ALIGN ∧ x = k * 20) ∧
      demoFinal.reads.Nodup ∧ demoFinal.hashed.Nodup ∧
      demoFinal.BlockPtr = demoParams.QUEUE_DEPTH + demoFinal.hashed.length ∧
      demoFinal.BlockPtr < U64 ∧
      (∀ (idx jdx : Nat) (x y : List Nat),
        idx < demoParams.BlockCount → jdx < demoParams.BlockCount → idx ≠ jdx →
        List.Disjoint
          ((hashBlock demoParams demoSHA1 { ov := diskAddr demoParams idx, pData := x }).map
            Prod.fst)
          ((hashBlock demoParams demoSHA1 { ov := diskAddr demoParams jdx, pData := y }).map
            Prod.fst)) :=
  ⟨demo_started, by decide, demo_run, rfl,
    output_slots_written_once demoSHA1 demoDevice demoEnv demoParams demoStart demoFinal
      demoSchedule demo_started (by decide) demo_run⟩

/-- C9: after a run started by `Entry` with at least one worker, without I/O
failure, in which every worker has left its loop, the reads issued are the
offsets `idx * IO_BLOCK_SZ` for `idx = 0, ..., BlockCount - 1`, each once, so
their number is `BlockCount`; and a call of `SubmitIo` that finds the cursor
at or past `BlockCount` returns false and issues no read.  The cursor is
assumed not to wrap (`BlockCount + THREAD_COUNT < 2^64`). -/
theorem reads_cover_blocks (SHA1 : List Nat → List Nat) (device : Nat → Nat)
    (env : Env) (p : Params) (s0 s : State) (evs : List Event)
    (hE : Entry env = .started p s0)
    (hcur : p.BlockCount + p.THREAD_COUNT < U64)
    (ht : 1 ≤ p.THREAD_COUNT)
    (hnf : noFailure evs = true)
    (hrun : run p SHA1 device s0 evs = some s)
    (hdone : s.live = 0) :
    s.reads = (List.range p.BlockCount).map (fun idx => idx * p.IO_BLOCK_SZ) ∧
      s.reads.length = p.BlockCount ∧ s.reads.Nodup ∧
      (∀ (t : State) (slot : Nat) (acc : Bool), p.BlockCount ≤ t.BlockPtr →
        (SubmitIo p acc t slot).1 = false ∧ (SubmitIo p acc t slot).2.reads = t.reads ∧
          (SubmitIo p acc t slot).2.iocp = t.iocp) := by
  obtain ⟨hv, hG0, hN0, _, _⟩ := Entry_started hE
  have hG := run_Good hv hcur SHA1 device evs s0 s hG0 hrun
  have hN := run_CntNF hv hcur SHA1 device evs s0 s hnf hG0.cnt hN0 hrun
  have hfin := hN.finished hdone ht
  have hreads : s.reads = (List.range p.BlockCount).map (fun idx => idx * p.IO_BLOCK_SZ) := by
    rw [hN.reads, hfin, Nat.min_eq_right (Nat.le_add_right _ _)]
  refine ⟨hreads, ?_, hG.inv.reads_nodup, ?_⟩
  · rw [hreads, List.length_map, List.length_range]
  · intro t slot acc hc
    rw [SubmitIo_drained p acc t slot hc]
    exact ⟨rfl, rfl, rfl⟩

/-- The two-worker run issues the reads at 0, 1024, 2048 and 3072. -/
theorem reads_cover_blocks_demo :
    Entry demoEnv = .started demoParams demoStart ∧
      demoParams.BlockCount + demoParams.THREAD_COUNT < U64 ∧
      1 ≤ demoParams.THREAD_COUNT ∧ noFailure demoSchedule = true ∧
      run demoParams demoSHA1 demoDevice demoStart demoSchedule = some demoFinal ∧
      demoFinal.live = 0 ∧
      demoFinal.reads
        = (List.range demoParams.BlockCount).map (fun idx => idx * demoParams.IO_BLOCK_SZ) ∧
      demoFinal.reads.length = demoParams.BlockCount ∧ demoFinal.reads.Nodup ∧
      (∀ (t : State) (slot : Nat) (acc : Bool), demoParams.BlockCount ≤ t.BlockPtr →
        (SubmitIo demoParams acc t slot).1 = false ∧
          (SubmitIo demoParams acc t slot).2.reads = t.reads ∧
          (SubmitIo demoParams acc t slot).2.iocp = t.iocp) :=
  ⟨demo_started, by decide, by decide, rfl, demo_run, rfl,
    reads_cover_blocks demoSHA1 demoDevice demoEnv demoParams demoStart demoFinal demoSchedule
      demo_started (by decide) (by decide) rfl demo_run rfl⟩

/-- C10: after a run started by `Entry` with at least one worker, without
I/O failure, in which every worker has left its loop, exactly
`BlockCount - QUEUE_DEPTH + THREAD_COUNT` blocks have been hashed (each once,
`BLOCK_CHUNKS` digests per block), and `QUEUE_DEPTH - THREAD_COUNT` issued
reads are still in flight, never consumed.  The cursor is assumed not to wrap
(`BlockCount + THREAD_COUNT < 2^64`). -/
theorem hashed_block_count (SHA1 : List Nat → List Nat) (device : Nat → Nat)
    (env : Env) (p : Params) (s0 s : State) (evs : List Event)
    (hE : Entry env = .started p s0)
    (hcur : p.BlockCount + p.THREAD_COUNT < U64)
    (ht : 1 ≤ p.THREAD_COUNT)
    (hnf : noFailure evs = true)
    (hrun : run p SHA1 device s0 evs = some s)
    (hdone : s.live = 0) :
    s.hashed.length = p.BlockCount - p.QUEUE_DEPTH + p.THREAD_COUNT ∧
      s.hashed.Nodup ∧
      s.out.length = (p.BlockCount - p.QUEUE_DEPTH + p.THREAD_COUNT) * p.BLOCK_CHUNKS ∧
      s.iocp.length = p.QUEUE_DEPTH - p.THREAD_COUNT ∧
      p.THREAD_COUNT ≤ p.QUEUE_DEPTH := by
  obtain ⟨hv, hG0, hN0, hle, _⟩ := Entry_started hE
  have hG := run_Good hv hcur SHA1 device evs s0 s hG0 hrun
  have hN := run_CntNF hv hcur SHA1 device evs s0 s hnf hG0.cnt hN0 hrun
  have hfin := hN.finished hdone ht
  have h1 := hG.cnt.hashed
  have h2 := hN.port
  have hlen : s.hashed.length = p.BlockCount - p.QUEUE_DEPTH + p.THREAD_COUNT := by omega
  refine ⟨hlen, hG.inv.hashed_block.1, ?_, by omega, by omega⟩
  rw [hG.out_length, hlen]

/-- The single-worker run hashes `4 - 2 + 1 = 3` blocks and leaves one read
in flight. -/
theorem hashed_block_count_solo :
    Entry soloEnv = .started soloParams soloStart ∧
      soloParams.BlockCount + soloParams.THREAD_COUNT < U64 ∧
      1 ≤ soloParams.THREAD_COUNT ∧ noFailure soloSchedule = true ∧
      run soloParams demoSHA1 demoDevice soloStart soloSchedule = some soloFinal ∧
      soloFinal.live = 0 ∧
      soloFinal.hashed.length
        = soloParams.BlockCount - soloParams.QUEUE_DEPTH + soloParams.THREAD_COUNT ∧
      soloFinal.hashed.Nodup ∧
      soloFinal.out.length
        = (soloParams.BlockCount - soloParams.QUEUE_DEPTH + soloParams.THREAD_COUNT)
          * soloParams.BLOCK_CHUNKS ∧
      soloFinal.iocp.length = soloParams.QUEUE_DEPTH - soloParams.THREAD_COUNT ∧
      soloParams.THREAD_COUNT ≤ soloParams.QUEUE_DEPTH :=
  ⟨solo_started, by decide, by decide, rfl, solo_run, rfl,
    hashed_block_count demoSHA1 demoDevice soloEnv soloParams soloStart soloFinal soloSchedule
      solo_started (by decide) (by decide) rfl solo_run rfl⟩

end Dsum
